import Mathlib

/-!
Verification of the protoplugin library (a support library for protoc code-generation
plugins) against its specification.  The Go sources are shallowly embedded: protobuf
messages become Lean structures, pointer-typed optional fields become `Option`,
fallible functions return `Except String`, and the in-place slice/record mutations of
the Go code are rendered as explicit state passing.  Strings are processed through
their underlying `List Char` so that every definition evaluates inside the kernel.
-/

namespace Protoplugin

/-! ## Path normalization (validate.go)

`validateAndNormalizePath` relies on Go's `filepath.ToSlash(filepath.Clean(path))`.
On the POSIX targets the library runs on, `ToSlash` is the identity and
`filepath.Clean` is `path.Clean`: the lexical cleaning algorithm documented in the Go
standard library (collapse multiple separators, drop `.` elements, resolve a `..`
against the preceding non-`..` element, drop a leading `..` of a rooted path, return
`.` for an empty result).  `pathClean` below implements exactly those rules with the
standard component-stack formulation, operating on `List Char` so that it reduces in
the kernel. -/

/-- Split a character list on `'/'`, keeping empty components, mirroring how Go's
cleaning algorithm scans separator-delimited elements. -/
def splitSlash : List Char → List (List Char)
  | [] => [[]]
  | c :: rest =>
    if c = '/' then [] :: splitSlash rest
    else
      match splitSlash rest with
      | [] => [[c]]
      | h :: t => (c :: h) :: t

/-- One step of Go `path.Clean`: push a path element onto the stack of already
cleaned elements (held in reverse order).  Empty and `.` elements are dropped; `..`
cancels the preceding non-`..` element, is dropped at the root of a rooted path, and
is kept otherwise. -/
def cleanStep (rooted : Bool) (stack : List (List Char)) (comp : List Char) : List (List Char) :=
  if comp = [] ∨ comp = ['.'] then stack
  else if comp = ['.', '.'] then
    match stack with
    | [] => if rooted then [] else [['.', '.']]
    | top :: rest => if top = ['.', '.'] then comp :: top :: rest else rest
  else comp :: stack

/-- Join cleaned path elements with `'/'`. -/
def joinSlash : List (List Char) → List Char
  | [] => []
  | [x] => x
  | x :: y :: rest => x ++ '/' :: joinSlash (y :: rest)

/-- Go `filepath.ToSlash (filepath.Clean path)` on POSIX. -/
def pathClean (path : String) : String :=
  match path.data with
  | [] => "."
  | c :: cs =>
    let rooted := c = '/'
    let cleaned := ((splitSlash (c :: cs)).foldl (cleanStep rooted) []).reverse
    let joined := joinSlash cleaned
    if rooted then ⟨'/' :: joined⟩
    else if joined = [] then "." else ⟨joined⟩

/-- Go `filepath.IsAbs` on POSIX: `strings.HasPrefix(path, "/")`. -/
def isAbs (path : String) : Bool :=
  ['/'].isPrefixOf path.data

/-- Go `strings.HasPrefix(path, "../")`. -/
def hasDotDotSlash (path : String) : Bool :=
  ['.', '.', '/'].isPrefixOf path.data

/-- `true` on `Except.error`. -/
def isError {ε α : Type} : Except ε α → Bool
  | .error _ => true
  | .ok _ => false

/-- validate.go `validateAndNormalizePath`: the path must be non-empty, its cleaned
form must be relative and must not jump context, and the cleaned form is returned. -/
def validateAndNormalizePath (path : String) : Except String String :=
  if path = "" then .error "path was empty"
  else
    let normalizedPath := pathClean path
    if isAbs normalizedPath then .error "path should be relative"
    else if hasDotDotSlash normalizedPath then .error "path should not jump context"
    else .ok normalizedPath

end Protoplugin

namespace Protoplugin

/-! ## CodeGeneratorResponse files and the Phase A empty-name merge (validate.go)

`pluginpb.CodeGeneratorResponse_File` has three optional (pointer-typed) fields used
by the normalization passes; `GetX` accessors return the zero value on `nil`.  The
`fieldName` parameter of the Go functions only decorates error messages and is
dropped here. -/

/-- `pluginpb.CodeGeneratorResponse_File`. -/
structure CodeGeneratorResponseFile where
  name : Option String
  insertionPoint : Option String
  content : Option String
deriving DecidableEq

/-- `GetName`: empty string when unset. -/
def CodeGeneratorResponseFile.getName (f : CodeGeneratorResponseFile) : String :=
  f.name.getD ""

/-- `GetInsertionPoint`: empty string when unset. -/
def CodeGeneratorResponseFile.getInsertionPoint (f : CodeGeneratorResponseFile) : String :=
  f.insertionPoint.getD ""

/-- The content merge performed in place on `prevFile` by the empty-name loop:
nothing happens when `curFile.Content` is nil, the pointer is taken over when
`prevFile.Content` is nil, and the strings are concatenated otherwise. -/
def mergeContent (prevFile curFile : CodeGeneratorResponseFile) : CodeGeneratorResponseFile :=
  match curFile.content with
  | none => prevFile
  | some c =>
    match prevFile.content with
    | none => { prevFile with content := some c }
    | some pc => { prevFile with content := some (pc ++ c) }

/-- The loop of `validateAndNormalizeCodeGeneratorResponseFilesWithPotentialEmptyNames`
over `files[1:]`, carrying the current record: a named record flushes the current one
into the output; a nameless record must have no insertion point and is merged into the
current record; the final current record is flushed at the end. -/
def mergeEmptyNames (prevFile : CodeGeneratorResponseFile) :
    List CodeGeneratorResponseFile → Except String (List CodeGeneratorResponseFile)
  | [] => .ok [prevFile]
  | curFile :: rest =>
    if curFile.getName ≠ "" then
      match mergeEmptyNames curFile rest with
      | .error e => .error e
      | .ok resultFiles => .ok (prevFile :: resultFiles)
    else if curFile.getInsertionPoint ≠ "" then
      .error "empty name with non-empty insertion point"
    else
      mergeEmptyNames (mergeContent prevFile curFile) rest

/-- validate.go `validateAndNormalizeCodeGeneratorResponseFilesWithPotentialEmptyNames`.
(The Go single-file shortcut returns the input list, which coincides with
`mergeEmptyNames prevFile []`.) -/
def validateAndNormalizeCodeGeneratorResponseFilesWithPotentialEmptyNames
    (files : List CodeGeneratorResponseFile) :
    Except String (List CodeGeneratorResponseFile) :=
  match files with
  | [] => .ok files
  | prevFile :: rest =>
    if prevFile.getName = "" then .error "first value had no name set"
    else mergeEmptyNames prevFile rest

/-! ## Phase B: duplicate reconciliation (validate.go)

`validateAndNormalizeCodeGeneratorResponseFilesWithPotentialDuplicates` walks the
Phase-A output.  Calls to the `lenientResponseValidateErrorFunc` callback are modelled
as an accumulated list of `ResponseWarning` values; a `none` callback (strict mode) is
the `lenient = false` case. -/

/-- The two recoverable issues reported through the lenient callback. -/
inductive ResponseWarning where
  | unnormalizedName (name normalizedName : String)
  | duplicateName (name : String)
deriving DecidableEq

/-- The loop of
`validateAndNormalizeCodeGeneratorResponseFilesWithPotentialDuplicates`, carrying the
`fileNames` set and the accumulated `resultFiles` (in reverse) plus emitted warnings
(in reverse). -/
def dedupFilesLoop (lenient : Bool) (fileNames : List String)
    (resultFiles : List CodeGeneratorResponseFile) (warnings : List ResponseWarning) :
    List CodeGeneratorResponseFile →
      Except String (List CodeGeneratorResponseFile × List ResponseWarning)
  | [] => .ok (resultFiles.reverse, warnings.reverse)
  | file :: rest =>
    let insertionPoint := file.getInsertionPoint
    match validateAndNormalizePath file.getName with
    | .error e => .error e
    | .ok normalizedName =>
      -- Unnormalized raw name: coerce with a warning in lenient mode, fail in strict.
      let coerced : Except String (String × CodeGeneratorResponseFile × List ResponseWarning) :=
        if file.getName = normalizedName then .ok (file.getName, file, warnings)
        else if lenient then
          .ok (normalizedName, { file with name := some normalizedName },
            .unnormalizedName file.getName normalizedName :: warnings)
        else .error "unnormalized file name"
      match coerced with
      | .error e => .error e
      | .ok (name, file, warnings) =>
        if fileNames.contains name && (insertionPoint == "") then
          if lenient then
            dedupFilesLoop lenient fileNames resultFiles
              (.duplicateName name :: warnings) rest
          else .error "duplicate file name"
        else
          dedupFilesLoop lenient (name :: fileNames) (file :: resultFiles) warnings rest

/-- validate.go `validateAndNormalizeCodeGeneratorResponseFilesWithPotentialDuplicates`. -/
def validateAndNormalizeCodeGeneratorResponseFilesWithPotentialDuplicates
    (lenient : Bool) (files : List CodeGeneratorResponseFile) :
    Except String (List CodeGeneratorResponseFile × List ResponseWarning) :=
  dedupFilesLoop lenient [] [] [] files

/-- Reference behavior, written from the spec's words for the lenient duplicate
policy: keep the first record for each name, emit one duplicate warning per dropped
record. -/
def firstWinsByName (seen : List String) :
    List CodeGeneratorResponseFile → List CodeGeneratorResponseFile × List ResponseWarning
  | [] => ([], [])
  | f :: rest =>
    if seen.contains f.getName then
      ((firstWinsByName seen rest).1,
        .duplicateName f.getName :: (firstWinsByName seen rest).2)
    else
      (f :: (firstWinsByName (f.getName :: seen) rest).1,
        (firstWinsByName (f.getName :: seen) rest).2)

/-! ## Phase C: the finalize-time response validation (validate.go)

`pluginpb.CodeGeneratorResponse` with the fields the normalizer touches.  Features
are a `uint64` bitmask (modelled as `Nat`); editions are `int32` (modelled as `Int`);
unset optional fields read as zero. -/

/-- `CodeGeneratorResponse_FEATURE_PROTO3_OPTIONAL`. -/
def featureProto3Optional : Nat := 1

/-- `CodeGeneratorResponse_FEATURE_SUPPORTS_EDITIONS`. -/
def featureSupportsEditions : Nat := 2

/-- validate.go `allSupportedFeaturesMask`. -/
def allSupportedFeaturesMask : Nat := featureProto3Optional ||| featureSupportsEditions

/-- `pluginpb.CodeGeneratorResponse`. -/
structure CodeGeneratorResponse where
  file : List CodeGeneratorResponseFile
  error : Option String
  supportedFeatures : Option Nat
  minimumEdition : Option Int
  maximumEdition : Option Int
deriving DecidableEq

/-- `GetSupportedFeatures`: zero when unset. -/
def CodeGeneratorResponse.getSupportedFeatures (r : CodeGeneratorResponse) : Nat :=
  r.supportedFeatures.getD 0

/-- `GetMinimumEdition`: zero when unset. -/
def CodeGeneratorResponse.getMinimumEdition (r : CodeGeneratorResponse) : Int :=
  r.minimumEdition.getD 0

/-- `GetMaximumEdition`: zero when unset. -/
def CodeGeneratorResponse.getMaximumEdition (r : CodeGeneratorResponse) : Int :=
  r.maximumEdition.getD 0

/-- validate.go `validateAndNormalizeCodeGeneratorResponse`: Phase A, Phase B, then
the supported-features and edition checks.  The Go code replaces `response.File` only
when a phase changed the list's length; since each phase's output coincides with the
(in-place updated) input slice whenever the lengths agree, the value-level effect is
to take the phase output unconditionally. -/
def validateAndNormalizeCodeGeneratorResponse (lenient : Bool)
    (response : CodeGeneratorResponse) :
    Except String (CodeGeneratorResponse × List ResponseWarning) :=
  match validateAndNormalizeCodeGeneratorResponseFilesWithPotentialEmptyNames
      response.file with
  | .error e => .error e
  | .ok files =>
    let response := { response with file := files }
    match validateAndNormalizeCodeGeneratorResponseFilesWithPotentialDuplicates lenient
        response.file with
    | .error e => .error e
    | .ok (files, warnings) =>
      let response := { response with file := files }
      if response.getSupportedFeatures ||| allSupportedFeaturesMask
          ≠ allSupportedFeaturesMask then
        .error "supported_features: unknown CodeGeneratorResponse.Features"
      else if response.getSupportedFeatures &&& featureSupportsEditions ≠ 0 then
        if response.getMinimumEdition = 0 then
          .error "FEATURE_SUPPORTS_EDITIONS specified but no minimum_edition set"
        else if response.getMaximumEdition = 0 then
          .error "FEATURE_SUPPORTS_EDITIONS specified but no maximum_edition set"
        else if response.getMinimumEdition > response.getMaximumEdition then
          .error "minimum_edition is greater than maximum_edition"
        else .ok (response, warnings)
      else .ok (response, warnings)

/-! ## CompilerVersion (compiler_version.go) -/

/-- Decimal digits of a natural number, fuel-driven so it reduces in the kernel. -/
def natReprAux : Nat → Nat → List Char
  | 0, _ => []
  | fuel + 1, n =>
    if n < 10 then [Char.ofNat (48 + n)]
    else natReprAux fuel (n / 10) ++ [Char.ofNat (48 + n % 10)]

/-- Decimal rendering of a natural number. -/
def natRepr (n : Nat) : String :=
  ⟨natReprAux (n + 1) n⟩

/-- Go `%d` applied to an `int`. -/
def intRepr : Int → String
  | .ofNat n => natRepr n
  | .negSucc n => "-" ++ natRepr (n + 1)

/-- compiler_version.go `CompilerVersion`. -/
structure CompilerVersion where
  major : Int
  minor : Int
  patch : Int
  suffix : String
deriving DecidableEq

/-- compiler_version.go `CompilerVersion.String` for a non-nil receiver (named
`string` here because `String` would shadow the builtin type): the patch component
is rendered when `Major <= 3 || Patch != 0` and omitted otherwise, and a non-empty
suffix is appended after a dash. -/
def CompilerVersion.string (c : CompilerVersion) : String :=
  let value :=
    if c.major ≤ 3 ∨ c.patch ≠ 0 then
      intRepr c.major ++ "." ++ intRepr c.minor ++ "." ++ intRepr c.patch
    else intRepr c.major ++ "." ++ intRepr c.minor
  if c.suffix ≠ "" then value ++ "-" ++ c.suffix else value

/-- The rendering rule exactly as the spec sentence states it (patch omitted when
`major ≤ 3` and `patch = 0`), written for comparison with the implementation. -/
def CompilerVersion.specString (c : CompilerVersion) : String :=
  let value :=
    if c.major ≤ 3 ∧ c.patch = 0 then intRepr c.major ++ "." ++ intRepr c.minor
    else intRepr c.major ++ "." ++ intRepr c.minor ++ "." ++ intRepr c.patch
  if c.suffix ≠ "" then value ++ "-" ++ c.suffix else value

/-! ## ResponseWriter mutation methods

The source tree carries two generations of the ResponseWriter side by side.  The
older exported struct (`ResponseWriter`) validates each added file at call time and
keeps an explicit `responseFileNames` set, system-error list and warning stream; the
current interface-backed implementation (`responseWriter`) appends records
unconditionally and defers all validation to the finalize step
(`ToCodeGeneratorResponse` → `validateAndNormalizeCodeGeneratorResponse`).  Both
`SetError` variants act on the response's optional `Error` field, modelled as
`Option String`. -/

/-- Struct-generation `ResponseWriter.SetError`: an empty message returns without
modifying the stored message; a non-empty message overwrites it. -/
def ResponseWriterSetError (errorField : Option String) (message : String) :
    Option String :=
  if message = "" then errorField else some message

/-- Interface-generation `responseWriter.SetError`: an empty message resets the
stored error to unset; a non-empty message overwrites it. -/
def responseWriterSetError (errorField : Option String) (message : String) :
    Option String :=
  if message = "" then none else some message

/-- The mutable state of the struct-generation `ResponseWriter` that
`AddCodeGeneratorResponseFiles` touches. -/
structure ResponseWriterState where
  responseFileNames : List String
  responseFiles : List CodeGeneratorResponseFile
  systemErrors : List String
  warnings : List ResponseWarning
deriving DecidableEq

/-- Struct-generation `responseWriter.isDuplicate`: a file with a non-empty insertion
point is never a duplicate; otherwise the name is looked up in the set of already
added names. -/
def ResponseWriterState.isDuplicate (r : ResponseWriterState)
    (file : CodeGeneratorResponseFile) : Bool :=
  if file.getInsertionPoint ≠ "" then false
  else r.responseFileNames.contains file.getName

/-- Struct-generation `ResponseWriter.AddCodeGeneratorResponseFiles`: per record,
require a non-empty name, normalize the path, warn and coerce the stored name when
normalization changes it, and drop (with a duplicate warning) a record whose final
name was already added without an insertion point.  The Go loop body exits the whole
method (`return`) on an empty name, an invalid path, or a duplicate, so the remainder
of the batch is abandoned there. -/
def ResponseWriterAddCodeGeneratorResponseFiles (r : ResponseWriterState) :
    List CodeGeneratorResponseFile → ResponseWriterState
  | [] => r
  | file :: rest =>
    if file.getName = "" then
      { r with systemErrors := r.systemErrors ++ ["CodeGeneratorResponse.File: name: empty"] }
    else
      match validateAndNormalizePath file.getName with
      | .error e => { r with systemErrors := r.systemErrors ++ [e] }
      | .ok normalizedName =>
        let warned :=
          if normalizedName ≠ file.getName then
            ({ file with name := some normalizedName },
              { r with warnings :=
                r.warnings ++ [.unnormalizedName file.getName normalizedName] })
          else (file, r)
        let file := warned.1
        let r := warned.2
        if r.isDuplicate file then
          { r with warnings := r.warnings ++ [.duplicateName file.getName] }
        else
          ResponseWriterAddCodeGeneratorResponseFiles
            ⟨file.getName :: r.responseFileNames, r.responseFiles ++ [file],
              r.systemErrors, r.warnings⟩ rest

/-- Interface-generation `responseWriter.AddCodeGeneratorResponseFiles`: a plain
append of the given records onto `codeGeneratorResponse.File`. -/
def responseWriterAddCodeGeneratorResponseFiles
    (responseFiles files : List CodeGeneratorResponseFile) :
    List CodeGeneratorResponseFile :=
  responseFiles ++ files

/-! ## Descriptor model (descriptorpb, as used by the stripper and request validator)

Each descriptor message keeps exactly the fields the repository reads or rewrites.
An "options" message is seen through `protoreflect.Range` as the list of its set
fields, each carrying its field number, the retention tag from the field's
`FieldOptions`, and an opaque payload; a nil options pointer is `none`.  The Go
functions can only fail on reflection type assertions that the typed embedding makes
impossible, so the error returns are dropped.  Each strip function returns, besides
the node and trie, a `Bool` that is `true` exactly when the Go function returned a
freshly allocated object — Go's pointer comparisons (`newOpts != file.GetOptions()`,
`newItem != item`) test precisely this. -/

/-- `descriptorpb.FieldOptions` retention enum. -/
inductive FieldRetention where
  | retentionUnknown
  | retentionRuntime
  | retentionSource
deriving DecidableEq

/-- `GetRetention() == descriptorpb.FieldOptions_RETENTION_SOURCE`. -/
def FieldRetention.isSource : FieldRetention → Bool
  | .retentionSource => true
  | _ => false

/-- One set field of an options message, as enumerated by `Range`. -/
structure OptionField where
  number : Nat
  retention : FieldRetention
  value : Nat
deriving DecidableEq

/-- `descriptorpb.FieldDescriptorProto`. -/
structure FieldDescriptorProto where
  name : Option String
  number : Option Nat
  options : Option (List OptionField)
deriving DecidableEq

/-- `descriptorpb.OneofDescriptorProto`. -/
structure OneofDescriptorProto where
  name : Option String
  options : Option (List OptionField)
deriving DecidableEq

/-- `descriptorpb.DescriptorProto_ExtensionRange` (`endNumber` models `End`). -/
structure DescriptorProtoExtensionRange where
  start : Option Nat
  endNumber : Option Nat
  options : Option (List OptionField)
deriving DecidableEq

/-- `descriptorpb.EnumValueDescriptorProto`. -/
structure EnumValueDescriptorProto where
  name : Option String
  number : Option Nat
  options : Option (List OptionField)
deriving DecidableEq

/-- `descriptorpb.EnumDescriptorProto`. -/
structure EnumDescriptorProto where
  name : Option String
  value : List EnumValueDescriptorProto
  options : Option (List OptionField)
deriving DecidableEq

/-- `descriptorpb.MethodDescriptorProto`. -/
structure MethodDescriptorProto where
  name : Option String
  options : Option (List OptionField)
deriving DecidableEq

/-- `descriptorpb.ServiceDescriptorProto`. -/
structure ServiceDescriptorProto where
  name : Option String
  method : List MethodDescriptorProto
  options : Option (List OptionField)
deriving DecidableEq

/-- `descriptorpb.DescriptorProto` (an inductive because messages nest). -/
inductive DescriptorProto where
  | mk (name : Option String) (field : List FieldDescriptorProto)
      (extension : List FieldDescriptorProto) (nestedType : List DescriptorProto)
      (enumType : List EnumDescriptorProto)
      (extensionRange : List DescriptorProtoExtensionRange)
      (oneofDecl : List OneofDescriptorProto) (options : Option (List OptionField))

/-- `Name`. -/
def DescriptorProto.name : DescriptorProto → Option String
  | .mk n _ _ _ _ _ _ _ => n

/-- `Field`. -/
def DescriptorProto.field : DescriptorProto → List FieldDescriptorProto
  | .mk _ f _ _ _ _ _ _ => f

/-- `Extension`. -/
def DescriptorProto.extension : DescriptorProto → List FieldDescriptorProto
  | .mk _ _ x _ _ _ _ _ => x

/-- `NestedType`. -/
def DescriptorProto.nestedType : DescriptorProto → List DescriptorProto
  | .mk _ _ _ nt _ _ _ _ => nt

/-- `EnumType`. -/
def DescriptorProto.enumType : DescriptorProto → List EnumDescriptorProto
  | .mk _ _ _ _ et _ _ _ => et

/-- `ExtensionRange`. -/
def DescriptorProto.extensionRange : DescriptorProto → List DescriptorProtoExtensionRange
  | .mk _ _ _ _ _ er _ _ => er

/-- `OneofDecl`. -/
def DescriptorProto.oneofDecl : DescriptorProto → List OneofDescriptorProto
  | .mk _ _ _ _ _ _ od _ => od

/-- `Options`. -/
def DescriptorProto.options : DescriptorProto → Option (List OptionField)
  | .mk _ _ _ _ _ _ _ o => o

/-- `descriptorpb.SourceCodeInfo_Location` (`span` stands for the untouched payload). -/
structure SourceCodeInfoLocation where
  path : List Nat
  span : List Nat
deriving DecidableEq

/-- `descriptorpb.SourceCodeInfo`. -/
structure SourceCodeInfo where
  location : List SourceCodeInfoLocation
deriving DecidableEq

/-- `descriptorpb.FileDescriptorProto`. -/
structure FileDescriptorProto where
  name : Option String
  dependency : List String
  messageType : List DescriptorProto
  enumType : List EnumDescriptorProto
  service : List ServiceDescriptorProto
  extension : List FieldDescriptorProto
  options : Option (List OptionField)
  sourceCodeInfo : Option SourceCodeInfo

/-- `GetName`: empty string when unset. -/
def FileDescriptorProto.getName (f : FileDescriptorProto) : String :=
  f.name.getD ""

/-! ## The removed-path trie (validate.go, protopluginutil) -/

/-- `sourcePathTrie`; the Go `map[int32]*sourcePathTrie` is an association list. -/
inductive sourcePathTrie where
  | mk (removed : Bool) (children : List (Nat × sourcePathTrie))

/-- `removed`. -/
def sourcePathTrie.removed : sourcePathTrie → Bool
  | .mk r _ => r

/-- `children`. -/
def sourcePathTrie.children : sourcePathTrie → List (Nat × sourcePathTrie)
  | .mk _ c => c

/-- `t.children[k]` lookup. -/
def lookupChild : List (Nat × sourcePathTrie) → Nat → Option sourcePathTrie
  | [], _ => none
  | (k, t) :: rest, e => if k = e then some t else lookupChild rest e

/-- `t.children[k] = child` map assignment. -/
def setChild : List (Nat × sourcePathTrie) → Nat → sourcePathTrie →
    List (Nat × sourcePathTrie)
  | [], e, c => [(e, c)]
  | (k, t) :: rest, e, c => if k = e then (e, c) :: rest else (k, t) :: setChild rest e c

/-- `sourcePathTrie.addPath` on a non-nil receiver: an empty path marks this node
removed; otherwise the (possibly fresh) child for the head element absorbs the tail. -/
def sourcePathTrie.addPath : sourcePathTrie → List Nat → sourcePathTrie
  | t, [] => .mk true t.children
  | t, e :: p =>
    let child := (lookupChild t.children e).getD (.mk false [])
    .mk t.removed (setChild t.children e (child.addPath p))

/-- `sourcePathTrie.isRemoved` on a non-nil receiver: a node marked removed covers
its whole subtree; otherwise the remaining path is chased through the children, with
a missing child meaning not removed. -/
def sourcePathTrie.isRemoved : sourcePathTrie → List Nat → Bool
  | t, path =>
    if t.removed then true
    else
      match path with
      | [] => false
      | e :: p =>
        match lookupChild t.children e with
        | none => false
        | some child => child.isRemoved p

/-- `sourcePath.push`: a nil path (no source info being tracked) stays nil. -/
def pushPath : Option (List Nat) → Nat → Option (List Nat)
  | none, _ => none
  | some p, e => some (p ++ [e])

/-- `addPath` through a possibly-nil trie pointer (a nil receiver is a no-op; a nil
path argument reads as the empty path, a combination the library never produces). -/
def addPathO : Option sourcePathTrie → Option (List Nat) → Option sourcePathTrie
  | none, _ => none
  | some t, p => some (t.addPath (p.getD []))

/-! ## The source-retention option stripper (validate.go, protopluginutil) -/

/-- `fileMessagesTag`. -/
def fileMessagesTag : Nat := 4
/-- `fileEnumsTag`. -/
def fileEnumsTag : Nat := 5
/-- `fileServicesTag`. -/
def fileServicesTag : Nat := 6
/-- `fileExtensionsTag`. -/
def fileExtensionsTag : Nat := 7
/-- `fileOptionsTag`. -/
def fileOptionsTag : Nat := 8
/-- `messageFieldsTag`. -/
def messageFieldsTag : Nat := 2
/-- `messageNestedMessagesTag`. -/
def messageNestedMessagesTag : Nat := 3
/-- `messageEnumsTag`. -/
def messageEnumsTag : Nat := 4
/-- `messageExtensionRangesTag`. -/
def messageExtensionRangesTag : Nat := 5
/-- `messageExtensionsTag`. -/
def messageExtensionsTag : Nat := 6
/-- `messageOptionsTag`. -/
def messageOptionsTag : Nat := 7
/-- `messageOneofsTag`. -/
def messageOneofsTag : Nat := 8
/-- `extensionRangeOptionsTag`. -/
def extensionRangeOptionsTag : Nat := 3
/-- `fieldOptionsTag`. -/
def fieldOptionsTag : Nat := 8
/-- `oneofOptionsTag`. -/
def oneofOptionsTag : Nat := 2
/-- `enumValuesTag`. -/
def enumValuesTag : Nat := 2
/-- `enumOptionsTag`. -/
def enumOptionsTag : Nat := 3
/-- `enumValOptionsTag`. -/
def enumValOptionsTag : Nat := 3
/-- `serviceMethodsTag`. -/
def serviceMethodsTag : Nat := 2
/-- `serviceOptionsTag`. -/
def serviceOptionsTag : Nat := 3
/-- `methodOptionsTag`. -/
def methodOptionsTag : Nat := 4

/-- `stripSourceRetentionOptionsFromProtoMessage`: if no set field is
source-retention-tagged, the options are returned as-is; if all are, the options are
replaced by absent and the whole options path is recorded; otherwise the kept fields
are copied into a fresh message and each removed field's path is recorded. -/
def stripSourceRetentionOptionsFromProtoMessage (options : Option (List OptionField))
    (path : Option (List Nat)) (removedPaths : Option sourcePathTrie) :
    Option (List OptionField) × Bool × Option sourcePathTrie :=
  let fields := options.getD []
  let hasFieldToStrip := fields.any (fun f => f.retention.isSource)
  if ¬ hasFieldToStrip then (options, false, removedPaths)
  else if (fields.filter (fun f => ! f.retention.isSource)).length = 0 then
    (none, true, addPathO removedPaths path)
  else
    (some (fields.filter (fun f => ! f.retention.isSource)), true,
      fields.foldl
        (fun t f =>
          if f.retention.isSource then addPathO t (pushPath path f.number) else t)
        removedPaths)

/-- The value an options message takes after a stripping pass that removed
something: the kept fields, or absent when none remain. -/
def stripOptions (options : Option (List OptionField)) : Option (List OptionField) :=
  let kept := (options.getD []).filter (fun f => ! f.retention.isSource)
  if kept.isEmpty then none else some kept

/-- `stripSourceRetentionOptionsFromField`. -/
def stripSourceRetentionOptionsFromField (field : FieldDescriptorProto)
    (path : Option (List Nat)) (removedPaths : Option sourcePathTrie) :
    FieldDescriptorProto × Bool × Option sourcePathTrie :=
  let r := stripSourceRetentionOptionsFromProtoMessage field.options
    (pushPath path fieldOptionsTag) removedPaths
  if r.2.1 then ({ field with options := r.1 }, true, r.2.2)
  else (field, false, r.2.2)

/-- `stripSourceRetentionOptionsFromOneof`. -/
def stripSourceRetentionOptionsFromOneof (oneof : OneofDescriptorProto)
    (path : Option (List Nat)) (removedPaths : Option sourcePathTrie) :
    OneofDescriptorProto × Bool × Option sourcePathTrie :=
  let r := stripSourceRetentionOptionsFromProtoMessage oneof.options
    (pushPath path oneofOptionsTag) removedPaths
  if r.2.1 then ({ oneof with options := r.1 }, true, r.2.2)
  else (oneof, false, r.2.2)

/-- `stripSourceRetentionOptionsFromExtensionRange`. -/
def stripSourceRetentionOptionsFromExtensionRange
    (extRange : DescriptorProtoExtensionRange) (path : Option (List Nat))
    (removedPaths : Option sourcePathTrie) :
    DescriptorProtoExtensionRange × Bool × Option sourcePathTrie :=
  let r := stripSourceRetentionOptionsFromProtoMessage extRange.options
    (pushPath path extensionRangeOptionsTag) removedPaths
  if r.2.1 then ({ extRange with options := r.1 }, true, r.2.2)
  else (extRange, false, r.2.2)

/-- `stripSourceRetentionOptionsFromEnumValue`. -/
def stripSourceRetentionOptionsFromEnumValue (enumVal : EnumValueDescriptorProto)
    (path : Option (List Nat)) (removedPaths : Option sourcePathTrie) :
    EnumValueDescriptorProto × Bool × Option sourcePathTrie :=
  let r := stripSourceRetentionOptionsFromProtoMessage enumVal.options
    (pushPath path enumValOptionsTag) removedPaths
  if r.2.1 then ({ enumVal with options := r.1 }, true, r.2.2)
  else (enumVal, false, r.2.2)

/-- `stripSourceRetentionOptionsFromMethod`. -/
def stripSourceRetentionOptionsFromMethod (method : MethodDescriptorProto)
    (path : Option (List Nat)) (removedPaths : Option sourcePathTrie) :
    MethodDescriptorProto × Bool × Option sourcePathTrie :=
  let r := stripSourceRetentionOptionsFromProtoMessage method.options
    (pushPath path methodOptionsTag) removedPaths
  if r.2.1 then ({ method with options := r.1 }, true, r.2.2)
  else (method, false, r.2.2)

/-- The loop of `stripOptionsFromAll`: each element is updated at its indexed path;
the flag collects whether any element came back as a fresh object. -/
def stripOptionsFromAllAux {T : Type}
    (updateFunc : T → Option (List Nat) → Option sourcePathTrie →
      T × Bool × Option sourcePathTrie)
    (path : Option (List Nat)) (i : Nat) (removedPaths : Option sourcePathTrie) :
    List T → List T × Bool × Option sourcePathTrie
  | [] => ([], false, removedPaths)
  | item :: rest =>
    let r1 := updateFunc item (pushPath path i) removedPaths
    let r2 := stripOptionsFromAllAux updateFunc path (i + 1) r1.2.2 rest
    (r1.1 :: r2.1, r1.2.1 || r2.2.1, r2.2.2)

/-- `stripOptionsFromAll`: the input slice itself is returned when nothing changed. -/
def stripOptionsFromAll {T : Type}
    (updateFunc : T → Option (List Nat) → Option sourcePathTrie →
      T × Bool × Option sourcePathTrie)
    (slice : List T) (path : Option (List Nat)) (removedPaths : Option sourcePathTrie) :
    List T × Bool × Option sourcePathTrie :=
  let r := stripOptionsFromAllAux updateFunc path 0 removedPaths slice
  (if r.2.1 then r.1 else slice, r.2.1, r.2.2)

/-- `stripSourceRetentionOptionsFromEnum`. -/
def stripSourceRetentionOptionsFromEnum (enum : EnumDescriptorProto)
    (path : Option (List Nat)) (removedPaths : Option sourcePathTrie) :
    EnumDescriptorProto × Bool × Option sourcePathTrie :=
  let rOpts := stripSourceRetentionOptionsFromProtoMessage enum.options
    (pushPath path enumOptionsTag) removedPaths
  let rVals := stripOptionsFromAll stripSourceRetentionOptionsFromEnumValue enum.value
    (pushPath path enumValuesTag) rOpts.2.2
  if rOpts.2.1 || rVals.2.1 then
    ({ enum with options := rOpts.1, value := rVals.1 }, true, rVals.2.2)
  else (enum, false, rVals.2.2)

/-- `stripSourceRetentionOptionsFromService`. -/
def stripSourceRetentionOptionsFromService (svc : ServiceDescriptorProto)
    (path : Option (List Nat)) (removedPaths : Option sourcePathTrie) :
    ServiceDescriptorProto × Bool × Option sourcePathTrie :=
  let rOpts := stripSourceRetentionOptionsFromProtoMessage svc.options
    (pushPath path serviceOptionsTag) removedPaths
  let rMethods := stripOptionsFromAll stripSourceRetentionOptionsFromMethod svc.method
    (pushPath path serviceMethodsTag) rOpts.2.2
  if rOpts.2.1 || rMethods.2.1 then
    ({ svc with options := rOpts.1, method := rMethods.1 }, true, rMethods.2.2)
  else (svc, false, rMethods.2.2)

mutual

/-- `stripSourceRetentionOptionsFromMessage`: options first, then fields, oneofs,
extension ranges, nested messages, enums and extensions; a shallow copy with the new
components is produced only when something changed. -/
def stripSourceRetentionOptionsFromMessage (msg : DescriptorProto)
    (path : Option (List Nat)) (removedPaths : Option sourcePathTrie) :
    DescriptorProto × Bool × Option sourcePathTrie :=
  match msg with
  | .mk name field extension nestedType enumType extensionRange oneofDecl options =>
    let rOpts := stripSourceRetentionOptionsFromProtoMessage options
      (pushPath path messageOptionsTag) removedPaths
    let rFields := stripOptionsFromAll stripSourceRetentionOptionsFromField field
      (pushPath path messageFieldsTag) rOpts.2.2
    let rOneofs := stripOptionsFromAll stripSourceRetentionOptionsFromOneof oneofDecl
      (pushPath path messageOneofsTag) rFields.2.2
    let rExtRanges := stripOptionsFromAll stripSourceRetentionOptionsFromExtensionRange
      extensionRange (pushPath path messageExtensionRangesTag) rOneofs.2.2
    -- `stripOptionsFromAll` for the recursive nested-message slice, inlined so the
    -- mutual recursion is visible to the termination checker.
    let rNested := stripMessageSlice (pushPath path messageNestedMessagesTag) 0
      rExtRanges.2.2 nestedType
    let newNested := if rNested.2.1 then rNested.1 else nestedType
    let rEnums := stripOptionsFromAll stripSourceRetentionOptionsFromEnum enumType
      (pushPath path messageEnumsTag) rNested.2.2
    let rExts := stripOptionsFromAll stripSourceRetentionOptionsFromField extension
      (pushPath path messageExtensionsTag) rEnums.2.2
    if rOpts.2.1 || rFields.2.1 || rOneofs.2.1 || rExtRanges.2.1 || rNested.2.1 ||
        rEnums.2.1 || rExts.2.1 then
      (.mk name rFields.1 rExts.1 newNested rEnums.1 rExtRanges.1 rOneofs.1 rOpts.1,
        true, rExts.2.2)
    else (msg, false, rExts.2.2)

/-- The `stripOptionsFromAllAux` loop specialized to nested messages. -/
def stripMessageSlice (path : Option (List Nat)) (i : Nat)
    (removedPaths : Option sourcePathTrie) :
    List DescriptorProto → List DescriptorProto × Bool × Option sourcePathTrie
  | [] => ([], false, removedPaths)
  | item :: rest =>
    let r1 := stripSourceRetentionOptionsFromMessage item (pushPath path i) removedPaths
    let r2 := stripMessageSlice path (i + 1) r1.2.2 rest
    (r1.1 :: r2.1, r1.2.1 || r2.2.1, r2.2.2)

end

/-- `stripOptionsFromAll` applied to a message slice (the input slice itself is
returned when nothing changed). -/
def stripOptionsFromAllMessages (slice : List DescriptorProto)
    (path : Option (List Nat)) (removedPaths : Option sourcePathTrie) :
    List DescriptorProto × Bool × Option sourcePathTrie :=
  let r := stripMessageSlice path 0 removedPaths slice
  (if r.2.1 then r.1 else slice, r.2.1, r.2.2)

/-- `stripSourcePathsForSourceRetentionOptions`: with no source info, no locations or
no trie there is nothing to do; otherwise the locations whose paths the trie marks
removed are dropped into a fresh `SourceCodeInfo`. -/
def stripSourcePathsForSourceRetentionOptions (sourceInfo : Option SourceCodeInfo)
    (removedPaths : Option sourcePathTrie) : Option SourceCodeInfo :=
  match sourceInfo, removedPaths with
  | none, _ => none
  | some si, none => some si
  | some si, some t =>
    if si.location.isEmpty then some si
    else some ⟨si.location.filter (fun loc => ! t.isRemoved loc.path)⟩

/-- The body of `StripSourceRetentionOptions` after the path/trie setup, factored
out over the initial path and trie state: the file is returned as-is when no
component changed, and otherwise a shallow copy carries the new components and the
pruned source info. -/
def stripFileWithState (file : FileDescriptorProto) (path : Option (List Nat))
    (removedPaths : Option sourcePathTrie) : FileDescriptorProto :=
  let rOpts := stripSourceRetentionOptionsFromProtoMessage file.options
    (pushPath path fileOptionsTag) removedPaths
  let rMsgs := stripOptionsFromAllMessages file.messageType
    (pushPath path fileMessagesTag) rOpts.2.2
  let rEnums := stripOptionsFromAll stripSourceRetentionOptionsFromEnum file.enumType
    (pushPath path fileEnumsTag) rMsgs.2.2
  let rExts := stripOptionsFromAll stripSourceRetentionOptionsFromField file.extension
    (pushPath path fileExtensionsTag) rEnums.2.2
  let rSvcs := stripOptionsFromAll stripSourceRetentionOptionsFromService file.service
    (pushPath path fileServicesTag) rExts.2.2
  if rOpts.2.1 || rMsgs.2.1 || rEnums.2.1 || rExts.2.1 || rSvcs.2.1 then
    { file with
      options := rOpts.1, messageType := rMsgs.1, enumType := rEnums.1,
      extension := rExts.1, service := rSvcs.1,
      sourceCodeInfo :=
        stripSourcePathsForSourceRetentionOptions file.sourceCodeInfo rSvcs.2.2 }
  else file

/-- `StripSourceRetentionOptions`: path recording and the removed-path trie are only
materialized when the file carries source locations. -/
def StripSourceRetentionOptions (file : FileDescriptorProto) : FileDescriptorProto :=
  let hasLocations :=
    match file.sourceCodeInfo with
    | some si => ! si.location.isEmpty
    | none => false
  stripFileWithState file (if hasLocations then some [] else none)
    (if hasLocations then some (.mk false []) else none)

/-! ### Cleanliness: a subtree with no source-retention-tagged option field -/

/-- No set field of this options message is source-retention-tagged. -/
def optionsClean (options : Option (List OptionField)) : Bool :=
  (options.getD []).all (fun f => ! f.retention.isSource)

/-- Cleanliness of a field. -/
def FieldDescriptorProto.clean (f : FieldDescriptorProto) : Bool :=
  optionsClean f.options

/-- Cleanliness of a oneof. -/
def OneofDescriptorProto.clean (o : OneofDescriptorProto) : Bool :=
  optionsClean o.options

/-- Cleanliness of an extension range. -/
def DescriptorProtoExtensionRange.clean (e : DescriptorProtoExtensionRange) : Bool :=
  optionsClean e.options

/-- Cleanliness of an enum value. -/
def EnumValueDescriptorProto.clean (v : EnumValueDescriptorProto) : Bool :=
  optionsClean v.options

/-- Cleanliness of an enum. -/
def EnumDescriptorProto.clean (e : EnumDescriptorProto) : Bool :=
  optionsClean e.options && e.value.all (fun v => v.clean)

/-- Cleanliness of a method. -/
def MethodDescriptorProto.clean (m : MethodDescriptorProto) : Bool :=
  optionsClean m.options

/-- Cleanliness of a service. -/
def ServiceDescriptorProto.clean (s : ServiceDescriptorProto) : Bool :=
  optionsClean s.options && s.method.all (fun m => m.clean)

mutual

/-- Cleanliness of a message, recursively. -/
def DescriptorProto.clean : DescriptorProto → Bool
  | .mk _ field extension nestedType enumType extensionRange oneofDecl options =>
    optionsClean options && field.all (fun f => f.clean) &&
    oneofDecl.all (fun o => o.clean) && extensionRange.all (fun e => e.clean) &&
    DescriptorProto.cleanList nestedType && enumType.all (fun e => e.clean) &&
    extension.all (fun f => f.clean)

/-- Cleanliness of a message list. -/
def DescriptorProto.cleanList : List DescriptorProto → Bool
  | [] => true
  | m :: rest => m.clean && DescriptorProto.cleanList rest

end

/-- Cleanliness of a whole file. -/
def FileDescriptorProto.clean (f : FileDescriptorProto) : Bool :=
  optionsClean f.options && DescriptorProto.cleanList f.messageType &&
  f.enumType.all (fun e => e.clean) && f.extension.all (fun x => x.clean) &&
  f.service.all (fun s => s.clean)

/-! ## Request validation (validate.go) and the Request view (request.go) -/

/-- The scan of Go `filepath.Ext` over the reversed characters: stop at a path
separator, return from the last dot (inclusive) to the end. -/
def fileExtAux : List Char → List Char → String
  | [], _ => ""
  | c :: rest, acc =>
    if c = '/' then ""
    else if c = '.' then ⟨c :: acc⟩
    else fileExtAux rest (c :: acc)

/-- Go `filepath.Ext` (POSIX). -/
def fileExt (path : String) : String :=
  fileExtAux path.data.reverse []

/-- `pluginpb.Version`. -/
structure PluginVersion where
  major : Option Int
  minor : Option Int
  patch : Option Int
  suffix : Option String
deriving DecidableEq

/-- `GetMajor`: zero when unset. -/
def PluginVersion.getMajor (v : PluginVersion) : Int := v.major.getD 0

/-- `GetMinor`: zero when unset. -/
def PluginVersion.getMinor (v : PluginVersion) : Int := v.minor.getD 0

/-- `GetPatch`: zero when unset. -/
def PluginVersion.getPatch (v : PluginVersion) : Int := v.patch.getD 0

/-- validate.go `validateCompilerVersion`. -/
def validateCompilerVersion (version : PluginVersion) : Except String Unit :=
  if version.getMajor < 0 then .error "major: negative"
  else if version.getMinor < 0 then .error "minor: negative"
  else if version.getPatch < 0 then .error "patch: negative"
  else .ok ()

/-- validate.go `validateAndCheckPathIsNormalized`: valid, and already equal to its
canonical form. -/
def validateAndCheckPathIsNormalized (path : String) : Except String Unit :=
  match validateAndNormalizePath path with
  | .error e => .error e
  | .ok normalizedPath =>
    if path ≠ normalizedPath then .error "path not given as normalized" else .ok ()

/-- validate.go `validateAndCheckProtoPathIsNormalized`: additionally requires the
`.proto` extension. -/
def validateAndCheckProtoPathIsNormalized (path : String) : Except String Unit :=
  match validateAndCheckPathIsNormalized path with
  | .error e => .error e
  | .ok _ =>
    if fileExt path ≠ ".proto" then .error "path should have the .proto file extension"
    else .ok ()

/-- The loop of `validateAndCheckProtoPathsAreNormalized`, carrying the `pathMap`
set. -/
def protoPathsLoop (pathMap : List String) : List String → Except String Unit
  | [] => .ok ()
  | path :: rest =>
    match validateAndCheckProtoPathIsNormalized path with
    | .error e => .error e
    | .ok _ =>
      if pathMap.contains path then .error "duplicate path"
      else protoPathsLoop (path :: pathMap) rest

/-- validate.go `validateAndCheckProtoPathsAreNormalized`. -/
def validateAndCheckProtoPathsAreNormalized (paths : List String) : Except String Unit :=
  protoPathsLoop [] paths

/-- validate.go `validateFileDescriptorProto` (a nil descriptor pointer has no
counterpart in the embedding). -/
def validateFileDescriptorProto (fd : FileDescriptorProto) : Except String Unit :=
  match validateAndCheckProtoPathIsNormalized fd.getName with
  | .error e => .error e
  | .ok _ => validateAndCheckProtoPathsAreNormalized fd.dependency

/-- The first loop of `validateCodeGeneratorRequestFileDescriptorProtos`: validate
each descriptor and collect the (duplicate-free) name set. -/
def fileDescriptorProtosLoop (nameMap : List String) :
    List FileDescriptorProto → Except String (List String)
  | [] => .ok nameMap
  | fd :: rest =>
    match validateFileDescriptorProto fd with
    | .error e => .error e
    | .ok _ =>
      if nameMap.contains fd.getName then .error "duplicate path"
      else fileDescriptorProtosLoop (fd.getName :: nameMap) rest

/-- The second loop: every file to generate must appear in the name set. -/
def filesToGenerateContainedLoop (nameMap : List String) :
    List String → Except String Unit
  | [] => .ok ()
  | f :: rest =>
    if ! nameMap.contains f then .error "path is not contained"
    else filesToGenerateContainedLoop nameMap rest

/-- The third loop (run only when exact equality is demanded): every collected name
must appear in the files to generate. -/
def equalToFilesToGenerateLoop (filesToGenerate : List String) :
    List String → Except String Unit
  | [] => .ok ()
  | n :: rest =>
    if ! filesToGenerate.contains n then
      .error "path is not contained within file_to_generate"
    else equalToFilesToGenerateLoop filesToGenerate rest

/-- validate.go `validateCodeGeneratorRequestFileDescriptorProtos`. -/
def validateCodeGeneratorRequestFileDescriptorProtos
    (fileDescriptorProtos : List FileDescriptorProto) (filesToGenerate : List String)
    (equalToOrSupersetOfFilesToGenerate : Bool) : Except String Unit :=
  match fileDescriptorProtosLoop [] fileDescriptorProtos with
  | .error e => .error e
  | .ok nameMap =>
    match filesToGenerateContainedLoop nameMap filesToGenerate with
    | .error e => .error e
    | .ok _ =>
      if equalToOrSupersetOfFilesToGenerate then
        equalToFilesToGenerateLoop filesToGenerate nameMap
      else .ok ()

/-- `pluginpb.CodeGeneratorRequest`. -/
structure CodeGeneratorRequest where
  fileToGenerate : List String
  parameter : Option String
  protoFile : List FileDescriptorProto
  sourceFileDescriptors : List FileDescriptorProto
  compilerVersion : Option PluginVersion

/-- validate.go `validateCodeGeneratorRequest` (a nil request has no counterpart in
the embedding). -/
def validateCodeGeneratorRequest (request : CodeGeneratorRequest) :
    Except String Unit :=
  if request.protoFile.isEmpty then .error "proto_file: empty"
  else if request.fileToGenerate.isEmpty then .error "file_to_generate: empty"
  else
    match validateAndCheckProtoPathsAreNormalized request.fileToGenerate with
    | .error e => .error e
    | .ok _ =>
      match validateCodeGeneratorRequestFileDescriptorProtos request.protoFile
          request.fileToGenerate false with
      | .error e => .error e
      | .ok _ =>
        match
          (if ! request.sourceFileDescriptors.isEmpty then
            validateCodeGeneratorRequestFileDescriptorProtos
              request.sourceFileDescriptors request.fileToGenerate true
          else .ok ()) with
        | .error e => .error e
        | .ok _ =>
          match request.compilerVersion with
          | some version => validateCompilerVersion version
          | none => .ok ()

/-- request.go `Request.GenerateFileDescriptorProtos`: with source-retention options
requested it is a clone of `source_file_descriptors`; otherwise the `proto_file`
entries whose names are in the `file_to_generate` set, in `proto_file` order. -/
def generateFileDescriptorProtos (sourceRetentionOptions : Bool)
    (r : CodeGeneratorRequest) : List FileDescriptorProto :=
  if sourceRetentionOptions then r.sourceFileDescriptors
  else r.protoFile.filter (fun protoFile => r.fileToGenerate.contains protoFile.getName)

/-- `mergeContent` never touches the name or insertion point of the current record. -/
theorem mergeContent_name (p c : CodeGeneratorResponseFile) :
    (mergeContent p c).name = p.name ∧ (mergeContent p c).insertionPoint = p.insertionPoint := by
  unfold mergeContent
  cases c.content <;> cases hp : p.content <;> simp [hp]

/-- A run of nameless, insertion-point-free records folds into the carried record. -/
theorem mergeEmptyNames_all_nameless (cs : List CodeGeneratorResponseFile) :
    ∀ prevFile : CodeGeneratorResponseFile,
      (∀ c ∈ cs, c.getName = "" ∧ c.getInsertionPoint = "") →
      mergeEmptyNames prevFile cs = .ok [cs.foldl mergeContent prevFile] := by
  induction cs with
  | nil => intro prevFile _; rfl
  | cons c cs ih =>
    intro prevFile h
    obtain ⟨hname, hip⟩ := h c (List.mem_cons_self c cs)
    have hrest := fun x hx => h x (List.mem_cons_of_mem c hx)
    simp only [mergeEmptyNames, hname, hip, ne_eq, not_true_eq_false, if_false,
      List.foldl_cons]
    exact ih (mergeContent prevFile c) hrest

/-- A nameless record with a non-empty insertion point anywhere in the walked suffix
makes the walk fail. -/
theorem mergeEmptyNames_bad_insertion (rest : List CodeGeneratorResponseFile) :
    ∀ (prevFile bad : CodeGeneratorResponseFile), bad ∈ rest → bad.getName = "" →
      bad.getInsertionPoint ≠ "" → isError (mergeEmptyNames prevFile rest) = true := by
  induction rest with
  | nil => intro _ bad h; exact absurd h (List.not_mem_nil bad)
  | cons c cs ih =>
    intro prevFile bad hmem hname hip
    rcases List.mem_cons.mp hmem with hbc | hmem'
    · subst hbc
      simp only [mergeEmptyNames, hname, ne_eq, not_true_eq_false, if_false, hip,
        not_false_eq_true, if_true, isError]
    · by_cases hc : c.getName = ""
      · by_cases hcip : c.getInsertionPoint = ""
        · simp only [mergeEmptyNames, hc, ne_eq, not_true_eq_false, if_false, hcip,
            if_true]
          exact ih (mergeContent prevFile c) bad hmem' hname hip
        · simp [mergeEmptyNames, hc, hcip, isError]
      · have := ih c bad hmem' hname hip
        simp only [mergeEmptyNames, hc, ne_eq, not_false_eq_true, if_true]
        cases herr : mergeEmptyNames c cs with
        | error e => simp [isError]
        | ok r => rw [herr] at this; simp [isError] at this

/-- C4: normalizing an already-canonical relative slash-separated path returns it
unchanged; normalizing `a/../b` yields `b`; normalization fails for the empty string,
for any path whose canonical form is absolute, and for any path whose canonical form
starts with `../`. -/
theorem c4_path_normalization :
    (∀ p : String, pathClean p = p → p ≠ "" → isAbs p = false → hasDotDotSlash p = false →
      validateAndNormalizePath p = .ok p)
    ∧ validateAndNormalizePath "a/../b" = .ok "b"
    ∧ isError (validateAndNormalizePath "") = true
    ∧ (∀ p : String, isAbs (pathClean p) = true → isError (validateAndNormalizePath p) = true)
    ∧ (∀ p : String, hasDotDotSlash (pathClean p) = true →
        isError (validateAndNormalizePath p) = true) := by
  refine ⟨?_, by rfl, by decide, ?_, ?_⟩
  · intro p hclean hne habs hdd
    simp only [validateAndNormalizePath, hne, if_false, hclean, habs, hdd]
    simp
  · intro p habs
    by_cases hp : p = ""
    · subst hp; simp [pathClean, isAbs] at habs
    · simp [validateAndNormalizePath, hp, habs, isError]
  · intro p hdd
    by_cases hp : p = ""
    · subst hp; simp [pathClean, hasDotDotSlash] at hdd
    · by_cases habs : isAbs (pathClean p) = true
      · simp [validateAndNormalizePath, hp, habs, isError]
      · simp only [Bool.not_eq_true] at habs
        simp [validateAndNormalizePath, hp, habs, hdd, isError]

/-- Concrete instantiation of every hypothesis of `c4_path_normalization`:
`a/b.proto` is canonical and accepted unchanged, `/a/b` is rejected as absolute, and
`../a` is rejected as jumping context. -/
theorem c4_path_normalization_witness :
    validateAndNormalizePath "a/b.proto" = .ok "a/b.proto"
    ∧ isError (validateAndNormalizePath "/a/b") = true
    ∧ isError (validateAndNormalizePath "../a") = true :=
  ⟨c4_path_normalization.1 "a/b.proto" (by decide) (by decide) (by decide) (by decide),
   c4_path_normalization.2.2.2.1 "/a/b" (by decide),
   c4_path_normalization.2.2.2.2 "../a" (by decide)⟩

/-- C1: Phase A of response normalization.  A non-empty list whose first record has
an empty name fails; `[{name:"file1",content:"c1"},{content:"c2"}]` normalizes to
`[{name:"file1",content:"c1c2"}]`; any number of trailing nameless insertion-point-free
records fold in order into the preceding named record; a record after the first with
an empty name and a non-empty insertion point causes failure. -/
theorem c1_empty_name_merge :
    (∀ (first : CodeGeneratorResponseFile) (rest : List CodeGeneratorResponseFile),
      first.getName = "" →
      isError (validateAndNormalizeCodeGeneratorResponseFilesWithPotentialEmptyNames
        (first :: rest)) = true)
    ∧ validateAndNormalizeCodeGeneratorResponseFilesWithPotentialEmptyNames
        [⟨some "file1", none, some "c1"⟩, ⟨none, none, some "c2"⟩]
        = .ok [⟨some "file1", none, some "c1c2"⟩]
    ∧ (∀ (first : CodeGeneratorResponseFile) (cs : List CodeGeneratorResponseFile),
        first.getName ≠ "" → (∀ c ∈ cs, c.getName = "" ∧ c.getInsertionPoint = "") →
        validateAndNormalizeCodeGeneratorResponseFilesWithPotentialEmptyNames (first :: cs)
          = .ok [cs.foldl mergeContent first])
    ∧ (∀ (first bad : CodeGeneratorResponseFile) (rest : List CodeGeneratorResponseFile),
        bad ∈ rest → bad.getName = "" → bad.getInsertionPoint ≠ "" →
        isError (validateAndNormalizeCodeGeneratorResponseFilesWithPotentialEmptyNames
          (first :: rest)) = true) := by
  refine ⟨?_, by rfl, ?_, ?_⟩
  · intro first rest hname
    simp [validateAndNormalizeCodeGeneratorResponseFilesWithPotentialEmptyNames, hname,
      isError]
  · intro first cs hname hcs
    simp only [validateAndNormalizeCodeGeneratorResponseFilesWithPotentialEmptyNames,
      hname, if_false]
    exact mergeEmptyNames_all_nameless cs first hcs
  · intro first bad rest hmem hname hip
    by_cases hfirst : first.getName = ""
    · simp [validateAndNormalizeCodeGeneratorResponseFilesWithPotentialEmptyNames, hfirst,
        isError]
    · simp only [validateAndNormalizeCodeGeneratorResponseFilesWithPotentialEmptyNames,
        hfirst, if_false]
      exact mergeEmptyNames_bad_insertion rest first bad hmem hname hip

/-- Concrete instantiation of the quantified parts of `c1_empty_name_merge`: a leading
nameless record is rejected, three trailing nameless records fold in order into the
named record, and a nameless record with an insertion point is rejected. -/
theorem c1_empty_name_merge_witness :
    isError (validateAndNormalizeCodeGeneratorResponseFilesWithPotentialEmptyNames
      [⟨none, none, some "c0"⟩]) = true
    ∧ validateAndNormalizeCodeGeneratorResponseFilesWithPotentialEmptyNames
        [⟨some "f", none, some "a"⟩, ⟨none, none, some "b"⟩, ⟨none, none, some "c"⟩,
          ⟨none, none, some "d"⟩]
        = .ok [[(⟨none, none, some "b"⟩ : CodeGeneratorResponseFile),
            ⟨none, none, some "c"⟩, ⟨none, none, some "d"⟩].foldl mergeContent
            ⟨some "f", none, some "a"⟩]
    ∧ isError (validateAndNormalizeCodeGeneratorResponseFilesWithPotentialEmptyNames
        [⟨some "f", none, some "a"⟩, ⟨none, some "point", some "b"⟩]) = true :=
  ⟨c1_empty_name_merge.1 ⟨none, none, some "c0"⟩ [] (by rfl),
   c1_empty_name_merge.2.2.1 ⟨some "f", none, some "a"⟩
     [⟨none, none, some "b"⟩, ⟨none, none, some "c"⟩, ⟨none, none, some "d"⟩]
     (by decide) (by decide),
   c1_empty_name_merge.2.2.2 ⟨some "f", none, some "a"⟩ ⟨none, some "point", some "b"⟩
     [⟨none, some "point", some "b"⟩] (by decide) (by rfl) (by decide)⟩

/-- On records whose names are already canonical and that have no insertion points,
the lenient Phase B walk is exactly first-wins deduplication with one duplicate
warning per dropped record. -/
theorem dedupFilesLoop_lenient_eq (files : List CodeGeneratorResponseFile) :
    ∀ (seen : List String) (result : List CodeGeneratorResponseFile)
      (warnings : List ResponseWarning),
      (∀ f ∈ files, validateAndNormalizePath f.getName = .ok f.getName ∧
        f.getInsertionPoint = "") →
      dedupFilesLoop true seen result warnings files
        = .ok (result.reverse ++ (firstWinsByName seen files).1,
            warnings.reverse ++ (firstWinsByName seen files).2) := by
  induction files with
  | nil => intro seen result warnings _; simp [dedupFilesLoop, firstWinsByName]
  | cons f rest ih =>
    intro seen result warnings h
    obtain ⟨hnorm, hip⟩ := h f (List.mem_cons_self f rest)
    have hrest := fun x hx => h x (List.mem_cons_of_mem f hx)
    by_cases hc : seen.contains f.getName
    · have hm : f.getName ∈ seen := by simpa using hc
      have ihx := ih seen result (.duplicateName f.getName :: warnings) hrest
      simp [dedupFilesLoop, hnorm, hip, hc, hm, firstWinsByName, ihx]
    · have hm : ¬ f.getName ∈ seen := by simpa using hc
      have ihx := ih (f.getName :: seen) (f :: result) warnings hrest
      simp [dedupFilesLoop, hnorm, hip, hc, hm, firstWinsByName, ihx]

/-- On records with canonical names and no insertion points, the strict Phase B walk
fails as soon as a duplicate name exists (either inside the remaining records or
against the already-seen set). -/
theorem dedupFilesLoop_strict_dup (files : List CodeGeneratorResponseFile) :
    ∀ (seen : List String) (result : List CodeGeneratorResponseFile)
      (warnings : List ResponseWarning),
      (∀ f ∈ files, validateAndNormalizePath f.getName = .ok f.getName ∧
        f.getInsertionPoint = "") →
      (¬ (files.map (·.getName)).Nodup ∨ ∃ f ∈ files, f.getName ∈ seen) →
      isError (dedupFilesLoop false seen result warnings files) = true := by
  induction files with
  | nil =>
    intro seen result warnings _ h
    rcases h with h | ⟨f, hf, _⟩
    · simp at h
    · exact absurd hf (List.not_mem_nil f)
  | cons f rest ih =>
    intro seen result warnings h hdup
    obtain ⟨hnorm, hip⟩ := h f (List.mem_cons_self f rest)
    have hrest := fun x hx => h x (List.mem_cons_of_mem f hx)
    by_cases hc : seen.contains f.getName
    · have hm : f.getName ∈ seen := by simpa using hc
      simp [dedupFilesLoop, hnorm, hip, hc, hm, isError]
    · have hm : ¬ f.getName ∈ seen := by simpa using hc
      have ihx := ih (f.getName :: seen) (f :: result) warnings hrest
      simp only [dedupFilesLoop, hnorm, hip, hc]
      simp only [if_pos rfl, if_true, beq_self_eq_true, Bool.and_true, Bool.false_and]
      rw [if_neg (by simpa using hm)]
      refine ihx ?_
      rcases hdup with hnd | ⟨g, hg, hgseen⟩
      · rw [List.map_cons, List.nodup_cons] at hnd
        push_neg at hnd
        by_cases hmem : f.getName ∈ rest.map (·.getName)
        · obtain ⟨g, hg, hgname⟩ := List.mem_map.mp hmem
          exact Or.inr ⟨g, hg, by rw [hgname]; exact List.mem_cons_self _ _⟩
        · exact Or.inl (fun hnodup => (hnd hmem) hnodup)
      · rcases List.mem_cons.mp hg with hgf | hg'
        · subst hgf
          exact absurd hgseen (by simpa using hc)
        · exact Or.inr ⟨g, hg', List.mem_cons_of_mem _ hgseen⟩

/-- A features value with a set bit at a position `≥ 2` fails the
`supported_features` mask test. -/
theorem lor_mask_ne_of_high_bit {f i : Nat} (hi : 2 ≤ i) (hbit : f.testBit i = true) :
    f ||| allSupportedFeaturesMask ≠ allSupportedFeaturesMask := by
  intro h
  have hlt : (3 : Nat) < 2 ^ i :=
    lt_of_lt_of_le (by norm_num) (Nat.pow_le_pow_right (by norm_num) hi)
  have hfalse : (3 : Nat).testBit i = false := Nat.testBit_eq_false_of_lt hlt
  have hmask : allSupportedFeaturesMask = 3 := rfl
  rw [hmask] at h
  have hcongr := congrArg (fun n => Nat.testBit n i) h
  simp [Nat.testBit_lor, hbit, hfalse] at hcongr

/-- The editions feature bit (bit 1) is set exactly when the Go mask test
`features & FEATURE_SUPPORTS_EDITIONS != 0` passes. -/
theorem and_editions_ne_zero_iff (f : Nat) :
    f &&& featureSupportsEditions ≠ 0 ↔ f.testBit 1 = true := by
  have h : f &&& 2 = (f.testBit 1).toNat * 2 := by
    simpa using Nat.and_two_pow f 1
  rw [show featureSupportsEditions = 2 from rfl, h]
  cases hb : f.testBit 1 <;> simp

/-- C2: Phase B duplicate reconciliation.  For records with canonical names and no
insertion points, two records with the same name leave only the first plus exactly one
duplicate warning in lenient mode and fail in strict mode; lenient mode in general is
first-wins deduplication; and records with non-empty insertion points are exempt from
the duplicate check, so two records sharing a name both survive in either mode. -/
theorem c2_duplicate_reconciliation :
    (∀ f1 f2 : CodeGeneratorResponseFile,
      validateAndNormalizePath f1.getName = .ok f1.getName →
      validateAndNormalizePath f2.getName = .ok f2.getName →
      f1.getName = f2.getName → f1.getInsertionPoint = "" → f2.getInsertionPoint = "" →
      validateAndNormalizeCodeGeneratorResponseFilesWithPotentialDuplicates true [f1, f2]
          = .ok ([f1], [.duplicateName f2.getName])
        ∧ isError (validateAndNormalizeCodeGeneratorResponseFilesWithPotentialDuplicates
            false [f1, f2]) = true)
    ∧ (∀ files : List CodeGeneratorResponseFile,
        (∀ f ∈ files, validateAndNormalizePath f.getName = .ok f.getName ∧
          f.getInsertionPoint = "") →
        validateAndNormalizeCodeGeneratorResponseFilesWithPotentialDuplicates true files
          = .ok (firstWinsByName [] files))
    ∧ (∀ (lenient : Bool) (f1 f2 : CodeGeneratorResponseFile),
        validateAndNormalizePath f1.getName = .ok f1.getName →
        validateAndNormalizePath f2.getName = .ok f2.getName →
        f1.getName = f2.getName → f1.getInsertionPoint ≠ "" → f2.getInsertionPoint ≠ "" →
        validateAndNormalizeCodeGeneratorResponseFilesWithPotentialDuplicates lenient
          [f1, f2] = .ok ([f1, f2], [])) := by
  refine ⟨?_, ?_, ?_⟩
  · intro f1 f2 h1 h2 hname hip1 hip2
    constructor
    · have := dedupFilesLoop_lenient_eq [f1, f2] [] [] []
        (by intro f hf
            rcases List.mem_cons.mp hf with rfl | hf'
            · exact ⟨h1, hip1⟩
            · rcases List.mem_cons.mp hf' with rfl | hf''
              · exact ⟨h2, hip2⟩
              · exact absurd hf'' (List.not_mem_nil f))
      rw [validateAndNormalizeCodeGeneratorResponseFilesWithPotentialDuplicates, this]
      simp [firstWinsByName, hname, List.contains_cons]
    · refine dedupFilesLoop_strict_dup [f1, f2] [] [] []
        (by intro f hf
            rcases List.mem_cons.mp hf with rfl | hf'
            · exact ⟨h1, hip1⟩
            · rcases List.mem_cons.mp hf' with rfl | hf''
              · exact ⟨h2, hip2⟩
              · exact absurd hf'' (List.not_mem_nil f)) ?_
      refine Or.inl ?_
      simp [hname]
  · intro files h
    rw [validateAndNormalizeCodeGeneratorResponseFilesWithPotentialDuplicates,
      dedupFilesLoop_lenient_eq files [] [] [] h]
    simp
  · intro lenient f1 f2 h1 h2 hname hip1 hip2
    simp only [validateAndNormalizeCodeGeneratorResponseFilesWithPotentialDuplicates,
      dedupFilesLoop, h1, h2, if_pos rfl]
    simp [hip1, hip2, beq_iff_eq]

/-- Concrete instantiation of `c2_duplicate_reconciliation`: two plain records named
`a.txt` collapse to the first with one duplicate warning (lenient) and fail (strict);
two insertion-point records named `a.txt` both survive. -/
theorem c2_duplicate_reconciliation_witness :
    validateAndNormalizeCodeGeneratorResponseFilesWithPotentialDuplicates true
        [⟨some "a.txt", none, some "x"⟩, ⟨some "a.txt", none, some "y"⟩]
      = .ok ([⟨some "a.txt", none, some "x"⟩], [.duplicateName "a.txt"])
    ∧ isError (validateAndNormalizeCodeGeneratorResponseFilesWithPotentialDuplicates
        false [⟨some "a.txt", none, some "x"⟩, ⟨some "a.txt", none, some "y"⟩]) = true
    ∧ validateAndNormalizeCodeGeneratorResponseFilesWithPotentialDuplicates false
        [⟨some "a.txt", some "p1", some "x"⟩, ⟨some "a.txt", some "p2", some "y"⟩]
      = .ok ([⟨some "a.txt", some "p1", some "x"⟩, ⟨some "a.txt", some "p2", some "y"⟩],
          []) := by
  have h := c2_duplicate_reconciliation.1 ⟨some "a.txt", none, some "x"⟩
    ⟨some "a.txt", none, some "y"⟩ (by rfl) (by rfl) (by rfl) (by rfl) (by rfl)
  exact ⟨h.1, h.2,
    c2_duplicate_reconciliation.2.2 false ⟨some "a.txt", some "p1", some "x"⟩
      ⟨some "a.txt", some "p2", some "y"⟩ (by rfl) (by rfl) (by rfl) (by decide)
      (by decide)⟩

/-- C3: finalize-time global checks.  A supported-features bit outside the known
enum (any set bit at position `≥ 2`) always fails; with the editions bit set, a zero
minimum edition, a zero maximum edition, or a minimum above the maximum is a hard
failure in both modes; and the bit with `minimumEdition = 3, maximumEdition = 5`
succeeds. -/
theorem c3_global_finalize_checks :
    (∀ (lenient : Bool) (response : CodeGeneratorResponse) (i : Nat), 2 ≤ i →
      response.getSupportedFeatures.testBit i = true →
      isError (validateAndNormalizeCodeGeneratorResponse lenient response) = true)
    ∧ (∀ (lenient : Bool) (response : CodeGeneratorResponse),
        response.getSupportedFeatures.testBit 1 = true →
        (response.getMinimumEdition = 0 ∨ response.getMaximumEdition = 0 ∨
          response.getMaximumEdition < response.getMinimumEdition) →
        isError (validateAndNormalizeCodeGeneratorResponse lenient response) = true)
    ∧ (∀ lenient : Bool,
        validateAndNormalizeCodeGeneratorResponse lenient
            ⟨[], none, some featureSupportsEditions, some 3, some 5⟩
          = .ok (⟨[], none, some featureSupportsEditions, some 3, some 5⟩, [])) := by
  refine ⟨?_, ?_, ?_⟩
  · intro lenient response i hi hbit
    unfold validateAndNormalizeCodeGeneratorResponse
    cases h1 : validateAndNormalizeCodeGeneratorResponseFilesWithPotentialEmptyNames
        response.file with
    | error e => simp [isError]
    | ok files =>
      dsimp only
      cases h2 : validateAndNormalizeCodeGeneratorResponseFilesWithPotentialDuplicates
          lenient files with
      | error e => simp [isError]
      | ok pair =>
        obtain ⟨files2, warnings⟩ := pair
        have hmask := lor_mask_ne_of_high_bit hi hbit
        simp [isError, CodeGeneratorResponse.getSupportedFeatures] at hmask ⊢
        simp [hmask]
  · intro lenient response hbit hbad
    unfold validateAndNormalizeCodeGeneratorResponse
    cases h1 : validateAndNormalizeCodeGeneratorResponseFilesWithPotentialEmptyNames
        response.file with
    | error e => simp [isError]
    | ok files =>
      dsimp only
      cases h2 : validateAndNormalizeCodeGeneratorResponseFilesWithPotentialDuplicates
          lenient files with
      | error e => simp [isError]
      | ok pair =>
        obtain ⟨files2, warnings⟩ := pair
        by_cases hmask : response.getSupportedFeatures ||| allSupportedFeaturesMask
            ≠ allSupportedFeaturesMask
        · simp [isError, CodeGeneratorResponse.getSupportedFeatures] at hmask ⊢
          simp [hmask]
        · push_neg at hmask
          have hed : response.getSupportedFeatures &&& featureSupportsEditions ≠ 0 :=
            (and_editions_ne_zero_iff response.getSupportedFeatures).mpr hbit
          simp only [CodeGeneratorResponse.getSupportedFeatures,
            CodeGeneratorResponse.getMinimumEdition,
            CodeGeneratorResponse.getMaximumEdition] at hmask hed hbad ⊢
          rcases hbad with hmin | hmax | hlt
          · simp [isError, hmask, hed, hmin]
          · by_cases hmin : response.minimumEdition.getD 0 = 0
            · simp [isError, hmask, hed, hmin]
            · simp [isError, hmask, hed, hmin, hmax]
          · by_cases hmin : response.minimumEdition.getD 0 = 0
            · simp [isError, hmask, hed, hmin]
            · by_cases hmax : response.maximumEdition.getD 0 = 0
              · simp [isError, hmask, hed, hmin, hmax]
              · simp [isError, hmask, hed, hmin, hmax, hlt]
  · intro lenient
    cases lenient <;> rfl

/-- Concrete instantiation of `c3_global_finalize_checks`: features `4` (an unknown
bit) fails, and the editions bit with `minimumEdition = 0`, with `maximumEdition = 0`,
and with `minimumEdition = 5 > maximumEdition = 3` each fail, in both modes. -/
theorem c3_global_finalize_checks_witness :
    isError (validateAndNormalizeCodeGeneratorResponse true ⟨[], none, some 4, none, none⟩)
        = true
    ∧ isError (validateAndNormalizeCodeGeneratorResponse false
        ⟨[], none, some 2, none, some 5⟩) = true
    ∧ isError (validateAndNormalizeCodeGeneratorResponse false
        ⟨[], none, some 2, some 3, none⟩) = true
    ∧ isError (validateAndNormalizeCodeGeneratorResponse true
        ⟨[], none, some 2, some 5, some 3⟩) = true :=
  ⟨c3_global_finalize_checks.1 true ⟨[], none, some 4, none, none⟩ 2 (by decide) (by decide),
   c3_global_finalize_checks.2.1 false ⟨[], none, some 2, none, some 5⟩ (by decide)
     (Or.inl (by decide)),
   c3_global_finalize_checks.2.1 false ⟨[], none, some 2, some 3, none⟩ (by decide)
     (Or.inr (Or.inl (by decide))),
   c3_global_finalize_checks.2.1 true ⟨[], none, some 2, some 5, some 3⟩ (by decide)
     (Or.inr (Or.inr (by decide)))⟩

/-- C10 counterexample: the claim says the patch component is omitted only when
`major ≤ 3` and `patch = 0`; at `major = 4, minor = 1, patch = 0` the code omits the
patch (giving `4.1`) while the claimed rule renders it (`4.1.0`), and at
`major = 3, minor = 15, patch = 0` the code renders the patch (`3.15.0`) while the
claimed rule omits it (`3.15`). -/
theorem c10_version_string_counterexample :
    CompilerVersion.string ⟨4, 1, 0, ""⟩ = "4.1"
    ∧ CompilerVersion.specString ⟨4, 1, 0, ""⟩ = "4.1.0"
    ∧ CompilerVersion.string ⟨3, 15, 0, ""⟩ = "3.15.0"
    ∧ CompilerVersion.specString ⟨3, 15, 0, ""⟩ = "3.15" := by
  refine ⟨by decide, by decide, by decide, by decide⟩

/-- C10 amended: for every CompilerVersion with non-negative components, the string
form is `major.minor[.patch][-suffix]`, where the patch component is omitted only
when `major > 3` and `patch = 0`; in all other cases the patch component is included,
and a non-empty suffix is appended after a dash. -/
theorem c10_version_string (c : CompilerVersion) (hmaj : 0 ≤ c.major)
    (hmin : 0 ≤ c.minor) (hpat : 0 ≤ c.patch) :
    (3 < c.major ∧ c.patch = 0 →
      c.string = intRepr c.major ++ "." ++ intRepr c.minor
        ++ (if c.suffix ≠ "" then "-" ++ c.suffix else ""))
    ∧ (¬ (3 < c.major ∧ c.patch = 0) →
      c.string = intRepr c.major ++ "." ++ intRepr c.minor ++ "." ++ intRepr c.patch
        ++ (if c.suffix ≠ "" then "-" ++ c.suffix else "")) := by
  constructor
  · rintro ⟨hgt, hzero⟩
    have hcond : ¬ (c.major ≤ 3 ∨ c.patch ≠ 0) := by
      push_neg
      exact ⟨by omega, hzero⟩
    simp only [CompilerVersion.string, if_neg hcond]
    by_cases hs : c.suffix = "" <;> simp [hs, String.append_assoc]
  · intro hne
    have hcond : c.major ≤ 3 ∨ c.patch ≠ 0 := by
      by_cases hm : c.major ≤ 3
      · exact Or.inl hm
      · exact Or.inr fun hp => hne ⟨by omega, hp⟩
    simp only [CompilerVersion.string, if_pos hcond]
    by_cases hs : c.suffix = "" <;> simp [hs, String.append_assoc]

/-- Concrete instantiation of `c10_version_string`: `5.2-rc1` omits the zero patch
for a major above 3 and appends the suffix; `3.2.0` keeps the zero patch for a major
of 3. -/
theorem c10_version_string_witness :
    CompilerVersion.string ⟨5, 2, 0, "rc1"⟩ = "5.2-rc1"
    ∧ CompilerVersion.string ⟨3, 2, 0, ""⟩ = "3.2.0" :=
  ⟨((c10_version_string ⟨5, 2, 0, "rc1"⟩ (by decide) (by decide) (by decide)).1
      ⟨by decide, rfl⟩).trans (by decide),
   ((c10_version_string ⟨3, 2, 0, ""⟩ (by decide) (by decide) (by decide)).2
      (by decide)).trans (by decide)⟩

/-- C8 counterexample: in the current interface-backed writer, `SetError ""` after
`SetError "failure"` clears the stored message (the claim says an empty-string call
never clears a previously set non-empty message); the older struct-based writer kept
it. -/
theorem c8_set_error_counterexample :
    responseWriterSetError (responseWriterSetError none "failure") "" = none
    ∧ ResponseWriterSetError (ResponseWriterSetError none "failure") "" = some "failure" :=
  ⟨rfl, rfl⟩

/-- C8 amended: a non-empty message overwrites the stored error in both writer
generations; an empty-string call leaves the stored message unchanged in the
struct-based `ResponseWriter.SetError` but resets it to unset in the interface-backed
`responseWriter.SetError`. -/
theorem c8_set_error (errorField : Option String) (message : String) :
    (message ≠ "" → ResponseWriterSetError errorField message = some message
      ∧ responseWriterSetError errorField message = some message)
    ∧ ResponseWriterSetError errorField "" = errorField
    ∧ responseWriterSetError errorField "" = none := by
  refine ⟨fun h => ⟨?_, ?_⟩, ?_, ?_⟩ <;>
    simp [ResponseWriterSetError, responseWriterSetError, *]

/-- Concrete instantiation of `c8_set_error` at a previously stored message `old` and
the calls `SetError "new"` and `SetError ""`. -/
theorem c8_set_error_witness :
    ResponseWriterSetError (some "old") "new" = some "new"
    ∧ responseWriterSetError (some "old") "new" = some "new"
    ∧ ResponseWriterSetError (some "old") "" = some "old"
    ∧ responseWriterSetError (some "old") "" = none :=
  ⟨((c8_set_error (some "old") "new").1 (by decide)).1,
   ((c8_set_error (some "old") "new").1 (by decide)).2,
   (c8_set_error (some "old") "").2.1,
   (c8_set_error (some "old") "").2.2⟩

/-- C9 counterexample: the current interface-backed batch add appends a record with
an empty name without recording any error (the claim says every mutating method
validates its own input at call time); the record is only rejected later, at
finalize, in either mode. -/
theorem c9_add_time_validation_counterexample :
    responseWriterAddCodeGeneratorResponseFiles [] [⟨none, none, some "x"⟩]
        = [⟨none, none, some "x"⟩]
    ∧ isError (validateAndNormalizeCodeGeneratorResponse true
        ⟨[⟨none, none, some "x"⟩], none, none, none, none⟩) = true
    ∧ isError (validateAndNormalizeCodeGeneratorResponse false
        ⟨[⟨none, none, some "x"⟩], none, none, none, none⟩) = true :=
  ⟨rfl, by rfl, by rfl⟩

/-- C9 amended: the struct-generation `ResponseWriter.AddCodeGeneratorResponseFiles`
validates at add time — an empty name records a system error and nothing is appended;
a name changed by normalization is coerced and appended together with a warning; a
record whose name was already added without an insertion point is dropped with one
duplicate warning — while the current interface-generation batch add appends all
records unconditionally, deferring validation to finalize. -/
theorem c9_add_time_validation :
    (∀ (r : ResponseWriterState) (file : CodeGeneratorResponseFile)
        (rest : List CodeGeneratorResponseFile), file.getName = "" →
      ResponseWriterAddCodeGeneratorResponseFiles r (file :: rest)
        = { r with systemErrors :=
            r.systemErrors ++ ["CodeGeneratorResponse.File: name: empty"] })
    ∧ (∀ (r : ResponseWriterState) (file : CodeGeneratorResponseFile) (n : String),
        file.getName ≠ "" → validateAndNormalizePath file.getName = .ok n →
        n ≠ file.getName → r.isDuplicate { file with name := some n } = false →
        ResponseWriterAddCodeGeneratorResponseFiles r [file]
          = ⟨n :: r.responseFileNames,
              r.responseFiles ++ [{ file with name := some n }],
              r.systemErrors,
              r.warnings ++ [.unnormalizedName file.getName n]⟩)
    ∧ (∀ (r : ResponseWriterState) (file : CodeGeneratorResponseFile),
        file.getName ≠ "" → validateAndNormalizePath file.getName = .ok file.getName →
        file.getInsertionPoint = "" → file.getName ∈ r.responseFileNames →
        ResponseWriterAddCodeGeneratorResponseFiles r [file]
          = { r with warnings := r.warnings ++ [.duplicateName file.getName] })
    ∧ (∀ responseFiles files : List CodeGeneratorResponseFile,
        responseWriterAddCodeGeneratorResponseFiles responseFiles files
          = responseFiles ++ files) := by
  refine ⟨?_, ?_, ?_, fun _ _ => rfl⟩
  · intro r file rest hname
    simp [ResponseWriterAddCodeGeneratorResponseFiles, hname]
  · intro r file n hname hnorm hne hdup
    have hgn : ({ file with name := some n } : CodeGeneratorResponseFile).getName = n := by
      simp [CodeGeneratorResponseFile.getName]
    simp only [ResponseWriterAddCodeGeneratorResponseFiles, hname, hnorm, hne,
      ne_eq, not_false_eq_true, if_true, if_false]
    simp [hname, hne, hdup, ResponseWriterAddCodeGeneratorResponseFiles, hgn]
    simpa [ResponseWriterState.isDuplicate] using hdup
  · intro r file hname hnorm hip hmem
    have hdup : r.isDuplicate file = true := by
      simp [ResponseWriterState.isDuplicate, hip, hmem]
    simp only [ResponseWriterAddCodeGeneratorResponseFiles, hname, hnorm]
    simp [hdup]

/-- Concrete instantiation of `c9_add_time_validation`: an empty-name record yields a
system error and no file; `./a.txt` is coerced to `a.txt` with a warning; a repeat of
`a.txt` without an insertion point is dropped with a duplicate warning; the
interface-generation add appends the nameless record as-is. -/
theorem c9_add_time_validation_witness :
    ResponseWriterAddCodeGeneratorResponseFiles ⟨[], [], [], []⟩ [⟨none, none, some "x"⟩]
      = ⟨[], [], ["CodeGeneratorResponse.File: name: empty"], []⟩
    ∧ ResponseWriterAddCodeGeneratorResponseFiles ⟨[], [], [], []⟩
        [⟨some "./a.txt", none, some "x"⟩]
      = ⟨["a.txt"], [⟨some "a.txt", none, some "x"⟩], [],
          [.unnormalizedName "./a.txt" "a.txt"]⟩
    ∧ ResponseWriterAddCodeGeneratorResponseFiles
        ⟨["a.txt"], [⟨some "a.txt", none, some "x"⟩], [], []⟩
        [⟨some "a.txt", none, some "y"⟩]
      = ⟨["a.txt"], [⟨some "a.txt", none, some "x"⟩], [], [.duplicateName "a.txt"]⟩
    ∧ responseWriterAddCodeGeneratorResponseFiles [] [⟨some "a.txt", none, some "y"⟩]
      = [⟨some "a.txt", none, some "y"⟩] :=
  ⟨(c9_add_time_validation.1 ⟨[], [], [], []⟩ ⟨none, none, some "x"⟩ [] (by rfl)).trans
      (by decide),
   (c9_add_time_validation.2.1 ⟨[], [], [], []⟩ ⟨some "./a.txt", none, some "x"⟩ "a.txt"
      (by decide) (by rfl) (by decide) (by decide)).trans (by decide),
   (c9_add_time_validation.2.2.1 ⟨["a.txt"], [⟨some "a.txt", none, some "x"⟩], [], []⟩
      ⟨some "a.txt", none, some "y"⟩ (by decide) (by rfl) (by rfl) (by decide)).trans
      (by decide),
   c9_add_time_validation.2.2.2 [] [⟨some "a.txt", none, some "y"⟩]⟩

/-- The empty trie node marks nothing as removed. -/
theorem isRemoved_mk_empty (p : List Nat) :
    (sourcePathTrie.mk false []).isRemoved p = false := by
  cases p <;>
    simp [sourcePathTrie.isRemoved, sourcePathTrie.removed, sourcePathTrie.children,
      lookupChild]

/-- Looking a key up after a map assignment. -/
theorem lookupChild_setChild (children : List (Nat × sourcePathTrie)) (a : Nat)
    (c : sourcePathTrie) (b : Nat) :
    lookupChild (setChild children a c) b
      = if b = a then some c else lookupChild children b := by
  induction children with
  | nil =>
    by_cases h : b = a
    · subst h; simp [setChild, lookupChild]
    · simp [setChild, lookupChild, h, Ne.symm h]
  | cons kv rest ih =>
    obtain ⟨k, t⟩ := kv
    by_cases hk : k = a
    · subst hk
      by_cases hb : k = b
      · subst hb; simp [setChild, lookupChild]
      · simp [setChild, lookupChild, hb, Ne.symm hb]
    · by_cases hb : k = b
      · subst hb
        have hba : ¬ k = a := hk
        simp [setChild, lookupChild, hk, Ne.symm hk, ih]
      · simp [setChild, lookupChild, hk, hb, ih]

/-- A node marked removed covers every path below it. -/
theorem isRemoved_of_removed (t : sourcePathTrie) (h : t.removed = true) :
    ∀ p, t.isRemoved p = true := by
  intro p
  cases p with
  | nil => simp [sourcePathTrie.isRemoved, h]
  | cons e p' => simp [sourcePathTrie.isRemoved, h]

/-- `isRemoved` of a node marked removed, in rewriting form. -/
theorem isRemoved_mk_true (children : List (Nat × sourcePathTrie)) (p : List Nat) :
    (sourcePathTrie.mk true children).isRemoved p = true :=
  isRemoved_of_removed (sourcePathTrie.mk true children) rfl p

/-- `isRemoved` after `addPath`: the added path marks exactly its own subtree on top
of what was already marked. -/
theorem isRemoved_addPath (q : List Nat) : ∀ (t : sourcePathTrie) (p : List Nat),
    (t.addPath q).isRemoved p = (t.isRemoved p || q.isPrefixOf p) := by
  induction q with
  | nil =>
    intro t p
    cases t with
    | mk removed children =>
      simp only [sourcePathTrie.addPath, sourcePathTrie.children, isRemoved_mk_true]
      simp [List.isPrefixOf]
  | cons a q ih =>
    intro t p
    cases t with
    | mk removed children =>
      by_cases hr : removed = true
      · subst hr
        simp only [sourcePathTrie.addPath, sourcePathTrie.removed,
          sourcePathTrie.children, isRemoved_mk_true]
        simp
      · simp only [Bool.not_eq_true] at hr
        subst hr
        cases p with
        | nil =>
          simp [sourcePathTrie.addPath, sourcePathTrie.isRemoved,
            sourcePathTrie.removed, sourcePathTrie.children, List.isPrefixOf]
        | cons b p' =>
          simp only [sourcePathTrie.addPath, sourcePathTrie.isRemoved,
            sourcePathTrie.removed, sourcePathTrie.children, if_false,
            Bool.false_eq_true, List.isPrefixOf]
          rw [lookupChild_setChild]
          by_cases hb : b = a
          · subst hb
            cases hc : lookupChild children b with
            | none => simp [hc, ih, isRemoved_mk_empty]
            | some child => simp [hc, ih]
          · have hba : (a == b) = false := by
              simp only [beq_eq_false_iff_ne, ne_eq]
              exact Ne.symm hb
            cases hc : lookupChild children b with
            | none => simp [hb, hc, hba]
            | some child => simp [hb, hc, hba]

/-- `isRemoved` over a trie built by folding `addPath`. -/
theorem isRemoved_foldl (ps : List (List Nat)) : ∀ (t : sourcePathTrie) (p : List Nat),
    ((ps.foldl sourcePathTrie.addPath t).isRemoved p)
      = (t.isRemoved p || ps.any (fun q => q.isPrefixOf p)) := by
  induction ps with
  | nil => intro t p; simp
  | cons q ps ih =>
    intro t p
    simp [List.foldl_cons, ih, isRemoved_addPath, Bool.or_assoc]

/-- C7: in the trie built by recording a set of removed paths, `isRemoved p` holds
exactly when some recorded path is a prefix of (or equal to) `p`; a node marked
removed short-circuits its whole subtree; and a non-empty location list is filtered
by exactly that descendant-or-equal test. -/
theorem c7_removed_path_trie :
    (∀ (ps : List (List Nat)) (p : List Nat),
      ((ps.foldl sourcePathTrie.addPath (.mk false [])).isRemoved p) = true
        ↔ ∃ q ∈ ps, q.isPrefixOf p = true)
    ∧ (∀ (t : sourcePathTrie) (p : List Nat), t.removed = true → t.isRemoved p = true)
    ∧ (∀ (si : SourceCodeInfo) (ps : List (List Nat)), si.location ≠ [] →
        stripSourcePathsForSourceRetentionOptions (some si)
            (some (ps.foldl sourcePathTrie.addPath (.mk false [])))
          = some ⟨si.location.filter
              (fun loc => ! ps.any (fun q => q.isPrefixOf loc.path))⟩) := by
  refine ⟨?_, ?_, ?_⟩
  · intro ps p
    rw [isRemoved_foldl, isRemoved_mk_empty]
    simp [List.any_eq_true]
  · intro t p h
    exact isRemoved_of_removed t h p
  · intro si ps hne
    have hempty : si.location.isEmpty = false := by
      cases hl : si.location with
      | nil => exact absurd hl hne
      | cons x xs => rfl
    simp only [stripSourcePathsForSourceRetentionOptions, hempty, Bool.false_eq_true,
      if_false]
    congr 1
    congr 1
    refine List.filter_congr ?_
    intro loc _
    rw [isRemoved_foldl, isRemoved_mk_empty, Bool.false_or]

/-- Concrete instantiation of `c7_removed_path_trie`: recording `[4,0,8]` removes the
descendant location `[4,0,8,3]` and keeps `[5]`; a root marked removed covers
everything. -/
theorem c7_removed_path_trie_witness :
    ((([[4, 0, 8]] : List (List Nat)).foldl sourcePathTrie.addPath
        (.mk false [])).isRemoved [4, 0, 8, 3]) = true
    ∧ (sourcePathTrie.mk true []).isRemoved [1, 2] = true
    ∧ stripSourcePathsForSourceRetentionOptions
        (some ⟨[⟨[4, 0, 8, 3], []⟩, ⟨[5], []⟩]⟩)
        (some (([[4, 0, 8]] : List (List Nat)).foldl sourcePathTrie.addPath
          (.mk false [])))
      = some ⟨[⟨[5], []⟩]⟩ :=
  ⟨(c7_removed_path_trie.1 [[4, 0, 8]] [4, 0, 8, 3]).mpr
      ⟨[4, 0, 8], by decide, by decide⟩,
   c7_removed_path_trie.2.1 ⟨true, []⟩ [1, 2] rfl,
   (c7_removed_path_trie.2.2 ⟨[⟨[4, 0, 8, 3], []⟩, ⟨[5], []⟩]⟩ [[4, 0, 8]]
      (by decide)).trans (by decide)⟩

/-- Inverting the path-list walk: success means every path validated, no duplicates,
and nothing already in the carried set. -/
theorem protoPathsLoop_ok (paths : List String) :
    ∀ pathMap : List String, protoPathsLoop pathMap paths = .ok () →
      paths.Nodup ∧ ∀ p ∈ paths, p ∉ pathMap := by
  induction paths with
  | nil => intro pathMap _; simp
  | cons p rest ih =>
    intro pathMap h
    rw [protoPathsLoop] at h
    cases hv : validateAndCheckProtoPathIsNormalized p with
    | error e => rw [hv] at h; exact absurd h (by simp)
    | ok u =>
      rw [hv] at h
      by_cases hc : pathMap.contains p
      · rw [if_pos hc] at h; exact absurd h (by simp)
      · rw [if_neg hc] at h
        obtain ⟨hnd, hnin⟩ := ih (p :: pathMap) h
        have hpr : p ∉ rest := fun hp =>
          (hnin p hp) (List.mem_cons_self p pathMap)
        refine ⟨List.nodup_cons.mpr ⟨hpr, hnd⟩, ?_⟩
        intro x hx
        rcases List.mem_cons.mp hx with rfl | hx'
        · simpa using hc
        · exact fun hxm => (hnin x hx') (List.mem_cons_of_mem p hxm)

/-- Inverting the descriptor walk: success determines the collected name set and
means the names are duplicate-free, also against the carried set. -/
theorem fileDescriptorProtosLoop_ok (fds : List FileDescriptorProto) :
    ∀ (nameMap result : List String),
      fileDescriptorProtosLoop nameMap fds = .ok result →
      result = (fds.map (fun fd => fd.getName)).reverse ++ nameMap
      ∧ (fds.map (fun fd => fd.getName)).Nodup
      ∧ ∀ n ∈ fds.map (fun fd => fd.getName), n ∉ nameMap := by
  induction fds with
  | nil =>
    intro nameMap result h
    rw [fileDescriptorProtosLoop] at h
    simp at h
    simp [h]
  | cons fd rest ih =>
    intro nameMap result h
    rw [fileDescriptorProtosLoop] at h
    cases hv : validateFileDescriptorProto fd with
    | error e => rw [hv] at h; exact absurd h (by simp)
    | ok u =>
      rw [hv] at h
      by_cases hc : nameMap.contains fd.getName
      · rw [if_pos hc] at h; exact absurd h (by simp)
      · rw [if_neg hc] at h
        obtain ⟨hres, hnd, hnin⟩ := ih (fd.getName :: nameMap) result h
        have hfr : fd.getName ∉ rest.map (fun fd => fd.getName) := fun hp =>
          (hnin fd.getName hp) (List.mem_cons_self _ _)
        refine ⟨?_, List.nodup_cons.mpr ⟨hfr, hnd⟩, ?_⟩
        · rw [hres]; simp
        · intro x hx
          rw [List.map_cons] at hx
          rcases List.mem_cons.mp hx with rfl | hx'
          · simpa using hc
          · exact fun hxm => (hnin x hx') (List.mem_cons_of_mem _ hxm)

/-- Inverting the containment walk: success means every file is in the name set. -/
theorem filesToGenerateContainedLoop_ok (fs : List String) (nameMap : List String) :
    filesToGenerateContainedLoop nameMap fs = .ok () → ∀ f ∈ fs, f ∈ nameMap := by
  induction fs with
  | nil => intro _ f hf; exact absurd hf (List.not_mem_nil f)
  | cons f rest ih =>
    intro h x hx
    rw [filesToGenerateContainedLoop] at h
    cases hcb : nameMap.contains f with
    | false =>
      rw [hcb] at h
      simp at h
    | true =>
      rw [hcb] at h
      simp only [Bool.not_true, Bool.false_eq_true, if_false] at h
      rcases List.mem_cons.mp hx with rfl | hx'
      · simpa using hcb
      · exact ih h x hx'

/-- Inverting the equality walk: success means every collected name is a file to
generate. -/
theorem equalToFilesToGenerateLoop_ok (ns : List String) (filesToGenerate : List String) :
    equalToFilesToGenerateLoop filesToGenerate ns = .ok () →
      ∀ n ∈ ns, n ∈ filesToGenerate := by
  induction ns with
  | nil => intro _ n hn; exact absurd hn (List.not_mem_nil n)
  | cons n rest ih =>
    intro h x hx
    rw [equalToFilesToGenerateLoop] at h
    cases hcb : filesToGenerate.contains n with
    | false =>
      rw [hcb] at h
      simp at h
    | true =>
      rw [hcb] at h
      simp only [Bool.not_true, Bool.false_eq_true, if_false] at h
      rcases List.mem_cons.mp hx with rfl | hx'
      · simpa using hcb
      · exact ih h x hx'

/-- Inverting `validateCodeGeneratorRequestFileDescriptorProtos`. -/
theorem validateCodeGeneratorRequestFileDescriptorProtos_ok
    (fds : List FileDescriptorProto) (filesToGenerate : List String) (flag : Bool)
    (h : validateCodeGeneratorRequestFileDescriptorProtos fds filesToGenerate flag
      = .ok ()) :
    (fds.map (fun fd => fd.getName)).Nodup
    ∧ (∀ f ∈ filesToGenerate, f ∈ fds.map (fun fd => fd.getName))
    ∧ (flag = true → ∀ n ∈ fds.map (fun fd => fd.getName), n ∈ filesToGenerate) := by
  rw [validateCodeGeneratorRequestFileDescriptorProtos] at h
  cases h1 : fileDescriptorProtosLoop [] fds with
  | error e => rw [h1] at h; simp at h
  | ok nameMap =>
    rw [h1] at h
    dsimp only at h
    obtain ⟨hres, hnd, _⟩ := fileDescriptorProtosLoop_ok fds [] nameMap h1
    have hresmem : ∀ x, x ∈ nameMap ↔ x ∈ fds.map (fun fd => fd.getName) := by
      intro x; rw [hres]; simp
    cases h2 : filesToGenerateContainedLoop nameMap filesToGenerate with
    | error e => rw [h2] at h; simp at h
    | ok u =>
      rw [h2] at h
      dsimp only at h
      have hcont := filesToGenerateContainedLoop_ok filesToGenerate nameMap h2
      refine ⟨hnd, fun f hf => (hresmem f).mp (hcont f hf), ?_⟩
      intro hflag n hn
      rw [hflag, if_pos rfl] at h
      exact equalToFilesToGenerateLoop_ok nameMap filesToGenerate h n
        ((hresmem n).mpr hn)

/-- Inverting `validateCodeGeneratorRequest`: the invariants available on any
request that passes validation. -/
theorem validateCodeGeneratorRequest_ok (r : CodeGeneratorRequest)
    (h : validateCodeGeneratorRequest r = .ok ()) :
    r.fileToGenerate.Nodup
    ∧ (r.protoFile.map (fun fd => fd.getName)).Nodup
    ∧ (∀ f ∈ r.fileToGenerate, f ∈ r.protoFile.map (fun fd => fd.getName))
    ∧ (r.sourceFileDescriptors ≠ [] →
        (r.sourceFileDescriptors.map (fun fd => fd.getName)).Nodup
        ∧ (∀ f ∈ r.fileToGenerate,
            f ∈ r.sourceFileDescriptors.map (fun fd => fd.getName))
        ∧ (∀ n ∈ r.sourceFileDescriptors.map (fun fd => fd.getName),
            n ∈ r.fileToGenerate)) := by
  rw [validateCodeGeneratorRequest] at h
  by_cases hpf : r.protoFile.isEmpty
  · rw [if_pos hpf] at h; exact absurd h (by simp)
  · rw [if_neg hpf] at h
    by_cases hfg : r.fileToGenerate.isEmpty
    · rw [if_pos hfg] at h; exact absurd h (by simp)
    · rw [if_neg hfg] at h
      cases h1 : validateAndCheckProtoPathsAreNormalized r.fileToGenerate with
      | error e => rw [h1] at h; simp at h
      | ok u1 =>
        rw [h1] at h
        dsimp only at h
        rw [validateAndCheckProtoPathsAreNormalized] at h1
        obtain ⟨hftgnd, _⟩ := protoPathsLoop_ok r.fileToGenerate [] h1
        cases h2 : validateCodeGeneratorRequestFileDescriptorProtos r.protoFile
            r.fileToGenerate false with
        | error e => rw [h2] at h; simp at h
        | ok u2 =>
          rw [h2] at h
          dsimp only at h
          obtain ⟨hpfnd, hpfsub, _⟩ :=
            validateCodeGeneratorRequestFileDescriptorProtos_ok r.protoFile
              r.fileToGenerate false h2
          refine ⟨hftgnd, hpfnd, hpfsub, ?_⟩
          intro hsfd
          have hnemp : (! r.sourceFileDescriptors.isEmpty) = true := by
            cases hs : r.sourceFileDescriptors with
            | nil => exact absurd hs hsfd
            | cons x xs => rfl
          rw [if_pos hnemp] at h
          cases h3 : validateCodeGeneratorRequestFileDescriptorProtos
              r.sourceFileDescriptors r.fileToGenerate true with
          | error e => rw [h3] at h; simp at h
          | ok u3 =>
            obtain ⟨hsnd, hssub, hseq⟩ :=
              validateCodeGeneratorRequestFileDescriptorProtos_ok
                r.sourceFileDescriptors r.fileToGenerate true h3
            exact ⟨hsnd, hssub, hseq rfl⟩

/-- Mapping `GetName` over a name-based filter commutes with filtering the names. -/
theorem map_getName_filter (pf : List FileDescriptorProto) (q : String → Bool) :
    ((pf.filter (fun fd => q fd.getName)).map (fun fd => fd.getName))
      = (pf.map (fun fd => fd.getName)).filter q := by
  induction pf with
  | nil => rfl
  | cons fd rest ih =>
    by_cases hq : q fd.getName
    · simp [List.filter_cons, hq, ih]
    · simp [List.filter_cons, hq, ih]

/-- Filtering a duplicate-free name list down to a duplicate-free subset of it is a
permutation of that subset. -/
theorem filter_contains_perm (names ftg : List String) (hn : names.Nodup)
    (hf : ftg.Nodup) (hsub : ∀ f ∈ ftg, f ∈ names) :
    (names.filter (fun n => ftg.contains n)).Perm ftg := by
  rw [List.perm_iff_count]
  intro a
  by_cases ha : a ∈ ftg
  · have hpa : ftg.contains a = true := by simpa using ha
    rw [List.count_filter hpa]
    rw [List.count_eq_one_of_mem hn (hsub a ha), List.count_eq_one_of_mem hf ha]
  · have h0 : a ∉ names.filter (fun n => ftg.contains n) := by
      intro hmem
      rw [List.mem_filter] at hmem
      exact ha (by simpa using hmem.2)
    rw [List.count_eq_zero_of_not_mem h0, List.count_eq_zero_of_not_mem ha]

/-- C5 counterexample: a request with `fileToGenerate = ["b.proto", "a.proto"]` and
`proto_file` listing `a.proto` before `b.proto` passes validation, but the derived
generate-subset comes back in `proto_file` order `["a.proto", "b.proto"]`, not in
`filesToGenerate` order as the claim states. -/
theorem c5_generate_order_counterexample :
    validateCodeGeneratorRequest
        ⟨["b.proto", "a.proto"], none,
          [⟨some "a.proto", [], [], [], [], [], none, none⟩,
            ⟨some "b.proto", [], [], [], [], [], none, none⟩], [], none⟩ = .ok ()
    ∧ ((generateFileDescriptorProtos false
        ⟨["b.proto", "a.proto"], none,
          [⟨some "a.proto", [], [], [], [], [], none, none⟩,
            ⟨some "b.proto", [], [], [], [], [], none, none⟩], [], none⟩).map
        (fun fd => fd.getName)) = ["a.proto", "b.proto"]
    ∧ (["a.proto", "b.proto"] : List String) ≠ ["b.proto", "a.proto"] :=
  ⟨by rfl, by rfl, by decide⟩

/-- C5 amended: for every request that passes validation, `proto_file` names are
duplicate-free and each element of `filesToGenerate` matches exactly one descriptor;
the derived generate-subset has the same length as `filesToGenerate` and carries
exactly its names (as a permutation, ordered by `proto_file`); and a non-empty
`source_file_descriptors` carries exactly the `filesToGenerate` name set, so a
strict superset or subset, or any duplicate name, fails validation. -/
theorem c5_request_invariants :
    (∀ r : CodeGeneratorRequest, validateCodeGeneratorRequest r = .ok () →
      (r.protoFile.map (fun fd => fd.getName)).Nodup
      ∧ (∀ f ∈ r.fileToGenerate,
          r.protoFile.countP (fun fd => fd.getName == f) = 1)
      ∧ ((generateFileDescriptorProtos false r).map (fun fd => fd.getName)).Perm
          r.fileToGenerate
      ∧ (generateFileDescriptorProtos false r).length = r.fileToGenerate.length
      ∧ (r.sourceFileDescriptors ≠ [] → ∀ s,
          s ∈ r.sourceFileDescriptors.map (fun fd => fd.getName)
            ↔ s ∈ r.fileToGenerate))
    ∧ (∀ r : CodeGeneratorRequest, r.sourceFileDescriptors ≠ [] →
        ¬ (∀ s, s ∈ r.sourceFileDescriptors.map (fun fd => fd.getName)
            ↔ s ∈ r.fileToGenerate) →
        isError (validateCodeGeneratorRequest r) = true)
    ∧ (∀ r : CodeGeneratorRequest, ¬ (r.protoFile.map (fun fd => fd.getName)).Nodup →
        isError (validateCodeGeneratorRequest r) = true) := by
  have main : ∀ r : CodeGeneratorRequest, validateCodeGeneratorRequest r = .ok () →
      (r.protoFile.map (fun fd => fd.getName)).Nodup
      ∧ (∀ f ∈ r.fileToGenerate,
          r.protoFile.countP (fun fd => fd.getName == f) = 1)
      ∧ ((generateFileDescriptorProtos false r).map (fun fd => fd.getName)).Perm
          r.fileToGenerate
      ∧ (generateFileDescriptorProtos false r).length = r.fileToGenerate.length
      ∧ (r.sourceFileDescriptors ≠ [] → ∀ s,
          s ∈ r.sourceFileDescriptors.map (fun fd => fd.getName)
            ↔ s ∈ r.fileToGenerate) := by
    intro r h
    obtain ⟨hftgnd, hpfnd, hpfsub, hsfd⟩ := validateCodeGeneratorRequest_ok r h
    have hperm : ((generateFileDescriptorProtos false r).map
        (fun fd => fd.getName)).Perm r.fileToGenerate := by
      simp only [generateFileDescriptorProtos, Bool.false_eq_true, if_false]
      rw [map_getName_filter]
      exact filter_contains_perm _ r.fileToGenerate hpfnd hftgnd hpfsub
    refine ⟨hpfnd, ?_, hperm, ?_, ?_⟩
    · intro f hf
      have hmap : (r.protoFile.map (fun fd => fd.getName)).countP (fun n => n == f)
          = r.protoFile.countP (fun fd => fd.getName == f) := List.countP_map ..
      have hcount : (r.protoFile.map (fun fd => fd.getName)).count f = 1 :=
        List.count_eq_one_of_mem hpfnd (hpfsub f hf)
      rw [← hmap]
      exact hcount
    · rw [← List.length_map (generateFileDescriptorProtos false r)
        (fun fd => fd.getName)]
      exact hperm.length_eq
    · intro hne s
      obtain ⟨hsnd, hssub, hseq⟩ := hsfd hne
      exact ⟨fun hs => hseq s hs, fun hs => hssub s hs⟩
  refine ⟨main, ?_, ?_⟩
  · intro r hne hniff
    cases hv : validateCodeGeneratorRequest r with
    | error e => rfl
    | ok u => cases u; exact absurd ((main r hv).2.2.2.2 hne) hniff
  · intro r hnd
    cases hv : validateCodeGeneratorRequest r with
    | error e => rfl
    | ok u => cases u; exact absurd (main r hv).1 hnd

/-- Concrete instantiation of `c5_request_invariants`: a valid two-file request
satisfies every invariant; a request whose `source_file_descriptors` names are a
strict subset of `filesToGenerate` fails; a request with a duplicated `proto_file`
name fails. -/
theorem c5_request_invariants_witness :
    ((([⟨some "a.proto", [], [], [], [], [], none, none⟩,
        ⟨some "b.proto", [], [], [], [], [], none, none⟩] :
          List FileDescriptorProto).map (fun fd => fd.getName)).Nodup
      ∧ (∀ f ∈ (["a.proto"] : List String),
          ([⟨some "a.proto", [], [], [], [], [], none, none⟩,
            ⟨some "b.proto", [], [], [], [], [], none, none⟩] :
              List FileDescriptorProto).countP (fun fd => fd.getName == f) = 1)
      ∧ ((generateFileDescriptorProtos false
          ⟨["a.proto"], none,
            [⟨some "a.proto", [], [], [], [], [], none, none⟩,
              ⟨some "b.proto", [], [], [], [], [], none, none⟩], [], none⟩).map
          (fun fd => fd.getName)).Perm ["a.proto"]
      ∧ (generateFileDescriptorProtos false
          ⟨["a.proto"], none,
            [⟨some "a.proto", [], [], [], [], [], none, none⟩,
              ⟨some "b.proto", [], [], [], [], [], none, none⟩], [], none⟩).length
          = (["a.proto"] : List String).length
      ∧ (([] : List FileDescriptorProto) ≠ [] → ∀ s,
          s ∈ ([] : List FileDescriptorProto).map (fun fd => fd.getName)
            ↔ s ∈ (["a.proto"] : List String)))
    ∧ isError (validateCodeGeneratorRequest
        ⟨["a.proto", "b.proto"], none,
          [⟨some "a.proto", [], [], [], [], [], none, none⟩,
            ⟨some "b.proto", [], [], [], [], [], none, none⟩],
          [⟨some "a.proto", [], [], [], [], [], none, none⟩], none⟩) = true
    ∧ isError (validateCodeGeneratorRequest
        ⟨["a.proto"], none,
          [⟨some "a.proto", [], [], [], [], [], none, none⟩,
            ⟨some "a.proto", [], [], [], [], [], none, none⟩], [], none⟩) = true :=
  ⟨c5_request_invariants.1
      ⟨["a.proto"], none,
        [⟨some "a.proto", [], [], [], [], [], none, none⟩,
          ⟨some "b.proto", [], [], [], [], [], none, none⟩], [], none⟩ (by rfl),
   c5_request_invariants.2.1
      ⟨["a.proto", "b.proto"], none,
        [⟨some "a.proto", [], [], [], [], [], none, none⟩,
          ⟨some "b.proto", [], [], [], [], [], none, none⟩],
        [⟨some "a.proto", [], [], [], [], [], none, none⟩], none⟩
      (by simp)
      (fun hiff => by
        simpa [FileDescriptorProto.getName] using (hiff "b.proto").mpr (by decide)),
   c5_request_invariants.2.2
      ⟨["a.proto"], none,
        [⟨some "a.proto", [], [], [], [], [], none, none⟩,
          ⟨some "a.proto", [], [], [], [], [], none, none⟩], [], none⟩
      (by decide)⟩

/-- Stripping clean options is the identity, with no flag and no trie change. -/
theorem optionsClean_strip (options : Option (List OptionField))
    (h : optionsClean options = true) (path : Option (List Nat))
    (t : Option sourcePathTrie) :
    stripSourceRetentionOptionsFromProtoMessage options path t = (options, false, t) := by
  have hany : (options.getD []).any (fun f => f.retention.isSource) = false := by
    simp only [optionsClean, List.all_eq_true] at h
    rw [List.any_eq_false]
    intro f hf
    have := h f hf
    simpa using this
  simp [stripSourceRetentionOptionsFromProtoMessage, hany]

/-- Stripping a clean field is the identity. -/
theorem field_clean_strip (f : FieldDescriptorProto) (h : f.clean = true)
    (path : Option (List Nat)) (t : Option sourcePathTrie) :
    stripSourceRetentionOptionsFromField f path t = (f, false, t) := by
  rw [FieldDescriptorProto.clean] at h
  simp [stripSourceRetentionOptionsFromField, optionsClean_strip f.options h]

/-- Stripping a clean oneof is the identity. -/
theorem oneof_clean_strip (o : OneofDescriptorProto) (h : o.clean = true)
    (path : Option (List Nat)) (t : Option sourcePathTrie) :
    stripSourceRetentionOptionsFromOneof o path t = (o, false, t) := by
  rw [OneofDescriptorProto.clean] at h
  simp [stripSourceRetentionOptionsFromOneof, optionsClean_strip o.options h]

/-- Stripping a clean extension range is the identity. -/
theorem extensionRange_clean_strip (e : DescriptorProtoExtensionRange)
    (h : e.clean = true) (path : Option (List Nat)) (t : Option sourcePathTrie) :
    stripSourceRetentionOptionsFromExtensionRange e path t = (e, false, t) := by
  rw [DescriptorProtoExtensionRange.clean] at h
  simp [stripSourceRetentionOptionsFromExtensionRange, optionsClean_strip e.options h]

/-- Stripping a clean enum value is the identity. -/
theorem enumValue_clean_strip (v : EnumValueDescriptorProto) (h : v.clean = true)
    (path : Option (List Nat)) (t : Option sourcePathTrie) :
    stripSourceRetentionOptionsFromEnumValue v path t = (v, false, t) := by
  rw [EnumValueDescriptorProto.clean] at h
  simp [stripSourceRetentionOptionsFromEnumValue, optionsClean_strip v.options h]

/-- Stripping a clean method is the identity. -/
theorem method_clean_strip (m : MethodDescriptorProto) (h : m.clean = true)
    (path : Option (List Nat)) (t : Option sourcePathTrie) :
    stripSourceRetentionOptionsFromMethod m path t = (m, false, t) := by
  rw [MethodDescriptorProto.clean] at h
  simp [stripSourceRetentionOptionsFromMethod, optionsClean_strip m.options h]

/-- The element walk over a slice the update function is the identity on. -/
theorem stripOptionsFromAllAux_clean {T : Type}
    (updateFunc : T → Option (List Nat) → Option sourcePathTrie →
      T × Bool × Option sourcePathTrie)
    (l : List T)
    (hupd : ∀ x ∈ l, ∀ (p : Option (List Nat)) (t : Option sourcePathTrie),
      updateFunc x p t = (x, false, t)) :
    ∀ (path : Option (List Nat)) (i : Nat) (t : Option sourcePathTrie),
      stripOptionsFromAllAux updateFunc path i t l = (l, false, t) := by
  induction l with
  | nil => intro path i t; rfl
  | cons x rest ih =>
    intro path i t
    have h1 := hupd x (List.mem_cons_self x rest)
    have h2 := ih (fun y hy => hupd y (List.mem_cons_of_mem x hy)) path (i + 1) t
    simp [stripOptionsFromAllAux, h1, h2]

/-- `stripOptionsFromAll` over such a slice returns it unchanged. -/
theorem stripOptionsFromAll_clean {T : Type}
    (updateFunc : T → Option (List Nat) → Option sourcePathTrie →
      T × Bool × Option sourcePathTrie)
    (l : List T)
    (hupd : ∀ x ∈ l, ∀ (p : Option (List Nat)) (t : Option sourcePathTrie),
      updateFunc x p t = (x, false, t))
    (path : Option (List Nat)) (t : Option sourcePathTrie) :
    stripOptionsFromAll updateFunc l path t = (l, false, t) := by
  simp [stripOptionsFromAll, stripOptionsFromAllAux_clean updateFunc l hupd path 0 t]

/-- Stripping a clean enum is the identity. -/
theorem enum_clean_strip (e : EnumDescriptorProto) (h : e.clean = true)
    (path : Option (List Nat)) (t : Option sourcePathTrie) :
    stripSourceRetentionOptionsFromEnum e path t = (e, false, t) := by
  rw [EnumDescriptorProto.clean] at h
  simp only [Bool.and_eq_true, List.all_eq_true] at h
  simp [stripSourceRetentionOptionsFromEnum, optionsClean_strip e.options h.1,
    stripOptionsFromAll_clean stripSourceRetentionOptionsFromEnumValue e.value
      (fun v hv p t => enumValue_clean_strip v (h.2 v hv) p t)]

/-- Stripping a clean service is the identity. -/
theorem service_clean_strip (s : ServiceDescriptorProto) (h : s.clean = true)
    (path : Option (List Nat)) (t : Option sourcePathTrie) :
    stripSourceRetentionOptionsFromService s path t = (s, false, t) := by
  rw [ServiceDescriptorProto.clean] at h
  simp only [Bool.and_eq_true, List.all_eq_true] at h
  simp [stripSourceRetentionOptionsFromService, optionsClean_strip s.options h.1,
    stripOptionsFromAll_clean stripSourceRetentionOptionsFromMethod s.method
      (fun m hm p t => method_clean_strip m (h.2 m hm) p t)]

mutual

/-- Stripping a clean message is the identity. -/
theorem message_clean_strip (msg : DescriptorProto) (h : msg.clean = true) :
    ∀ (path : Option (List Nat)) (t : Option sourcePathTrie),
      stripSourceRetentionOptionsFromMessage msg path t = (msg, false, t) := by
  cases msg with
  | mk n f x nt et er od o =>
    intro path t
    rw [DescriptorProto.clean] at h
    simp only [Bool.and_eq_true, List.all_eq_true] at h
    obtain ⟨⟨⟨⟨⟨⟨hopts, hf⟩, hod⟩, her⟩, hnt⟩, het⟩, hx⟩ := h
    have hF := stripOptionsFromAll_clean stripSourceRetentionOptionsFromField f
      (fun y hy p t => field_clean_strip y (hf y hy) p t)
    have hOd := stripOptionsFromAll_clean stripSourceRetentionOptionsFromOneof od
      (fun y hy p t => oneof_clean_strip y (hod y hy) p t)
    have hEr := stripOptionsFromAll_clean stripSourceRetentionOptionsFromExtensionRange
      er (fun y hy p t => extensionRange_clean_strip y (her y hy) p t)
    have hNt := messageSlice_clean_strip nt hnt
    have hEt := stripOptionsFromAll_clean stripSourceRetentionOptionsFromEnum et
      (fun y hy p t => enum_clean_strip y (het y hy) p t)
    have hX := stripOptionsFromAll_clean stripSourceRetentionOptionsFromField x
      (fun y hy p t => field_clean_strip y (hx y hy) p t)
    simp [stripSourceRetentionOptionsFromMessage, optionsClean_strip o hopts,
      hF, hOd, hEr, hNt, hEt, hX]

/-- The message-slice walk over a clean slice is the identity. -/
theorem messageSlice_clean_strip (l : List DescriptorProto)
    (h : DescriptorProto.cleanList l = true) :
    ∀ (path : Option (List Nat)) (i : Nat) (t : Option sourcePathTrie),
      stripMessageSlice path i t l = (l, false, t) := by
  cases l with
  | nil => intro path i t; rfl
  | cons m rest =>
    intro path i t
    rw [DescriptorProto.cleanList] at h
    simp only [Bool.and_eq_true] at h
    have h1 := message_clean_strip m h.1 (pushPath path i) t
    have h2 := messageSlice_clean_strip rest h.2 path (i + 1) t
    simp [stripMessageSlice, h1, h2]

end

/-- Stripping options that do carry a source-retention field really changes them. -/
theorem stripOptions_ne (options : Option (List OptionField))
    (h : optionsClean options = false) : stripOptions options ≠ options := by
  match options with
  | none => simp [optionsClean] at h
  | some l =>
    have hex : ∃ f ∈ l, ¬ (! f.retention.isSource) = true := by
      by_contra hall
      push_neg at hall
      have : optionsClean (some l) = true := by
        simp only [optionsClean, Option.getD, List.all_eq_true]
        intro f hf
        exact hall f hf
      rw [this] at h
      exact absurd h (by simp)
    obtain ⟨bad, hbad, hbadsrc⟩ := hex
    have hlt : (l.filter (fun f => ! f.retention.isSource)).length < l.length :=
      List.length_filter_lt_length_iff_exists.mpr ⟨bad, hbad, hbadsrc⟩
    intro heq
    rw [stripOptions] at heq
    by_cases hke : (l.filter (fun f => ! f.retention.isSource)).isEmpty
    · simp only [Option.getD, hke, if_pos] at heq
      exact absurd heq (by simp)
    · simp only [Option.getD, hke, Bool.false_eq_true, if_false] at heq
      have := Option.some.inj heq
      rw [this] at hlt
      exact absurd hlt (by simp)

/-- Stripping options that carry a source-retention field yields `stripOptions` with
the flag set (the trie update depends on which branch was taken). -/
theorem optionsClean_false_strip (options : Option (List OptionField))
    (h : optionsClean options = false) (path : Option (List Nat))
    (t : Option sourcePathTrie) :
    ∃ t', stripSourceRetentionOptionsFromProtoMessage options path t
      = (stripOptions options, true, t') := by
  have hany : (options.getD []).any (fun f => f.retention.isSource) = true := by
    rw [List.any_eq_true]
    rw [optionsClean, List.all_eq_false] at h
    obtain ⟨f, hf, hsrc⟩ := h
    exact ⟨f, hf, by simpa using hsrc⟩
  rw [stripSourceRetentionOptionsFromProtoMessage]
  rw [if_neg (by simp [hany])]
  by_cases hlen : ((options.getD []).filter (fun f => ! f.retention.isSource)).length = 0
  · rw [if_pos hlen]
    refine ⟨addPathO t path, ?_⟩
    have hempty :
        ((options.getD []).filter (fun f => ! f.retention.isSource)).isEmpty = true := by
      rw [List.length_eq_zero.mp hlen]; rfl
    rw [stripOptions]
    simp [hempty]
  · rw [if_neg hlen]
    have hempty :
        ((options.getD []).filter (fun f => ! f.retention.isSource)).isEmpty = false := by
      cases hk : (options.getD []).filter (fun f => ! f.retention.isSource) with
      | nil => exact absurd (by rw [hk]; rfl) hlen
      | cons a as => rfl
    refine ⟨(options.getD []).foldl
      (fun tt f =>
        if f.retention.isSource then addPathO tt (pushPath path f.number) else tt)
      t, ?_⟩
    rw [stripOptions]
    simp [hempty]

/-- Stripping a field whose options carry a source-retention field produces the
coerced field with the flag set. -/
theorem field_dirty_strip (fld : FieldDescriptorProto)
    (h : optionsClean fld.options = false) (path : Option (List Nat))
    (t : Option sourcePathTrie) :
    ∃ t', stripSourceRetentionOptionsFromField fld path t
      = ({ fld with options := stripOptions fld.options }, true, t') := by
  obtain ⟨t', ht⟩ := optionsClean_false_strip fld.options h
    (pushPath path fieldOptionsTag) t
  exact ⟨t', by simp [stripSourceRetentionOptionsFromField, ht]⟩

/-- The element walk over a slice with exactly one changing element. -/
theorem stripOptionsFromAllAux_one_dirty {T : Type}
    (updateFunc : T → Option (List Nat) → Option sourcePathTrie →
      T × Bool × Option sourcePathTrie)
    (pre post : List T) (x x' : T)
    (hpre : ∀ y ∈ pre, ∀ (p : Option (List Nat)) (t : Option sourcePathTrie),
      updateFunc y p t = (y, false, t))
    (hpost : ∀ y ∈ post, ∀ (p : Option (List Nat)) (t : Option sourcePathTrie),
      updateFunc y p t = (y, false, t))
    (hx : ∀ (p : Option (List Nat)) (t : Option sourcePathTrie),
      ∃ t', updateFunc x p t = (x', true, t')) :
    ∀ (path : Option (List Nat)) (i : Nat) (t : Option sourcePathTrie),
      ∃ t', stripOptionsFromAllAux updateFunc path i t (pre ++ x :: post)
        = (pre ++ x' :: post, true, t') := by
  induction pre with
  | nil =>
    intro path i t
    obtain ⟨t1, h1⟩ := hx (pushPath path i) t
    have h2 := stripOptionsFromAllAux_clean updateFunc post hpost path (i + 1) t1
    exact ⟨t1, by simp [stripOptionsFromAllAux, h1, h2]⟩
  | cons y pre ih =>
    intro path i t
    have h1 := hpre y (List.mem_cons_self y _) (pushPath path i) t
    obtain ⟨t', h2⟩ := ih (fun z hz => hpre z (List.mem_cons_of_mem y hz)) path (i + 1) t
    exact ⟨t', by simp [stripOptionsFromAllAux, h1, h2]⟩

/-- `stripOptionsFromAll` over a slice with exactly one changing element. -/
theorem stripOptionsFromAll_one_dirty {T : Type}
    (updateFunc : T → Option (List Nat) → Option sourcePathTrie →
      T × Bool × Option sourcePathTrie)
    (pre post : List T) (x x' : T)
    (hpre : ∀ y ∈ pre, ∀ (p : Option (List Nat)) (t : Option sourcePathTrie),
      updateFunc y p t = (y, false, t))
    (hpost : ∀ y ∈ post, ∀ (p : Option (List Nat)) (t : Option sourcePathTrie),
      updateFunc y p t = (y, false, t))
    (hx : ∀ (p : Option (List Nat)) (t : Option sourcePathTrie),
      ∃ t', updateFunc x p t = (x', true, t'))
    (path : Option (List Nat)) (t : Option sourcePathTrie) :
    ∃ t', stripOptionsFromAll updateFunc (pre ++ x :: post) path t
      = (pre ++ x' :: post, true, t') := by
  obtain ⟨t', haux⟩ :=
    stripOptionsFromAllAux_one_dirty updateFunc pre post x x' hpre hpost hx path 0 t
  exact ⟨t', by simp [stripOptionsFromAll, haux]⟩

/-- The message-slice walk with exactly one changing message. -/
theorem stripMessageSlice_one_dirty (pre post : List DescriptorProto)
    (msg msg' : DescriptorProto)
    (hpre : DescriptorProto.cleanList pre = true)
    (hpost : DescriptorProto.cleanList post = true)
    (hmsg : ∀ (p : Option (List Nat)) (t : Option sourcePathTrie),
      ∃ t', stripSourceRetentionOptionsFromMessage msg p t = (msg', true, t')) :
    ∀ (path : Option (List Nat)) (i : Nat) (t : Option sourcePathTrie),
      ∃ t', stripMessageSlice path i t (pre ++ msg :: post)
        = (pre ++ msg' :: post, true, t') := by
  induction pre with
  | nil =>
    intro path i t
    obtain ⟨t1, h1⟩ := hmsg (pushPath path i) t
    have h2 := messageSlice_clean_strip post hpost path (i + 1) t1
    exact ⟨t1, by simp [stripMessageSlice, h1, h2]⟩
  | cons y pre ih =>
    intro path i t
    rw [DescriptorProto.cleanList] at hpre
    simp only [Bool.and_eq_true] at hpre
    have h1 := message_clean_strip y hpre.1 (pushPath path i) t
    obtain ⟨t', h2⟩ := ih hpre.2 path (i + 1) t
    exact ⟨t', by simp [stripMessageSlice, h1, h2]⟩

/-- A message whose only source-retention option sits on one of its fields strips to
a shallow copy with that field coerced. -/
theorem message_one_dirty_field_strip (mname : Option String)
    (fpre fpost : List FieldDescriptorProto) (fld : FieldDescriptorProto)
    (mx : List FieldDescriptorProto) (mnt : List DescriptorProto)
    (met : List EnumDescriptorProto) (mer : List DescriptorProtoExtensionRange)
    (mod : List OneofDescriptorProto) (mo : Option (List OptionField))
    (hfpre : fpre.all (fun f => f.clean) = true)
    (hfpost : fpost.all (fun f => f.clean) = true)
    (hmx : mx.all (fun f => f.clean) = true)
    (hmnt : DescriptorProto.cleanList mnt = true)
    (hmet : met.all (fun e => e.clean) = true)
    (hmer : mer.all (fun e => e.clean) = true)
    (hmod : mod.all (fun o => o.clean) = true)
    (hmo : optionsClean mo = true)
    (hfld : optionsClean fld.options = false) :
    ∀ (path : Option (List Nat)) (t : Option sourcePathTrie),
      ∃ t', stripSourceRetentionOptionsFromMessage
          (.mk mname (fpre ++ fld :: fpost) mx mnt met mer mod mo) path t
        = (.mk mname
            (fpre ++ ({ fld with options := stripOptions fld.options }) :: fpost)
            mx mnt met mer mod mo, true, t') := by
  intro path t
  simp only [List.all_eq_true] at hfpre hfpost hmx hmet hmer hmod
  obtain ⟨t1, hFields⟩ := stripOptionsFromAll_one_dirty
    stripSourceRetentionOptionsFromField fpre fpost fld
    ({ fld with options := stripOptions fld.options })
    (fun y hy p t => field_clean_strip y (hfpre y hy) p t)
    (fun y hy p t => field_clean_strip y (hfpost y hy) p t)
    (fun p t => field_dirty_strip fld hfld p t)
    (pushPath path messageFieldsTag) t
  have hOpts := optionsClean_strip mo hmo (pushPath path messageOptionsTag) t
  have hOd : ∀ (p : Option (List Nat)) (tt : Option sourcePathTrie),
      stripOptionsFromAll stripSourceRetentionOptionsFromOneof mod p tt
        = (mod, false, tt) :=
    fun p tt => stripOptionsFromAll_clean _ mod
      (fun y hy p' t' => oneof_clean_strip y (hmod y hy) p' t') p tt
  have hEr : ∀ (p : Option (List Nat)) (tt : Option sourcePathTrie),
      stripOptionsFromAll stripSourceRetentionOptionsFromExtensionRange mer p tt
        = (mer, false, tt) :=
    fun p tt => stripOptionsFromAll_clean _ mer
      (fun y hy p' t' => extensionRange_clean_strip y (hmer y hy) p' t') p tt
  have hNt := messageSlice_clean_strip mnt hmnt
  have hEt : ∀ (p : Option (List Nat)) (tt : Option sourcePathTrie),
      stripOptionsFromAll stripSourceRetentionOptionsFromEnum met p tt
        = (met, false, tt) :=
    fun p tt => stripOptionsFromAll_clean _ met
      (fun y hy p' t' => enum_clean_strip y (hmet y hy) p' t') p tt
  have hX : ∀ (p : Option (List Nat)) (tt : Option sourcePathTrie),
      stripOptionsFromAll stripSourceRetentionOptionsFromField mx p tt
        = (mx, false, tt) :=
    fun p tt => stripOptionsFromAll_clean _ mx
      (fun y hy p' t' => field_clean_strip y (hmx y hy) p' t') p tt
  exact ⟨t1, by
    simp [stripSourceRetentionOptionsFromMessage, hOpts, hFields, hOd, hEr, hNt,
      hEt, hX]⟩

/-- `stripFileWithState` on a clean file is the identity, for every initial path and
trie state. -/
theorem stripFileWithState_clean (file : FileDescriptorProto)
    (h : file.clean = true) :
    ∀ (path : Option (List Nat)) (t : Option sourcePathTrie),
      stripFileWithState file path t = file := by
  intro path t
  rw [FileDescriptorProto.clean] at h
  simp only [Bool.and_eq_true, List.all_eq_true] at h
  obtain ⟨⟨⟨⟨hopts, hmsgs⟩, het⟩, hx⟩, hsvc⟩ := h
  have hO : ∀ (p : Option (List Nat)) (tt : Option sourcePathTrie),
      stripSourceRetentionOptionsFromProtoMessage file.options p tt
        = (file.options, false, tt) :=
    fun p tt => optionsClean_strip file.options hopts p tt
  have hM : ∀ (p : Option (List Nat)) (tt : Option sourcePathTrie),
      stripOptionsFromAllMessages file.messageType p tt
        = (file.messageType, false, tt) := by
    intro p tt
    simp [stripOptionsFromAllMessages,
      messageSlice_clean_strip file.messageType hmsgs p 0 tt]
  have hE : ∀ (p : Option (List Nat)) (tt : Option sourcePathTrie),
      stripOptionsFromAll stripSourceRetentionOptionsFromEnum file.enumType p tt
        = (file.enumType, false, tt) :=
    fun p tt => stripOptionsFromAll_clean _ file.enumType
      (fun y hy p' t' => enum_clean_strip y (het y hy) p' t') p tt
  have hXx : ∀ (p : Option (List Nat)) (tt : Option sourcePathTrie),
      stripOptionsFromAll stripSourceRetentionOptionsFromField file.extension p tt
        = (file.extension, false, tt) :=
    fun p tt => stripOptionsFromAll_clean _ file.extension
      (fun y hy p' t' => field_clean_strip y (hx y hy) p' t') p tt
  have hS : ∀ (p : Option (List Nat)) (tt : Option sourcePathTrie),
      stripOptionsFromAll stripSourceRetentionOptionsFromService file.service p tt
        = (file.service, false, tt) :=
    fun p tt => stripOptionsFromAll_clean _ file.service
      (fun y hy p' t' => service_clean_strip y (hsvc y hy) p' t') p tt
  simp [stripFileWithState, hO, hM, hE, hXx, hS]

/-- `stripFileWithState` on a file whose only source-retention option sits on one
message field: a shallow copy with that one message chain rebuilt. -/
theorem stripFileWithState_one_dirty (file : FileDescriptorProto)
    (pre post : List DescriptorProto) (mname : Option String)
    (fpre fpost : List FieldDescriptorProto) (fld : FieldDescriptorProto)
    (mx : List FieldDescriptorProto) (mnt : List DescriptorProto)
    (met : List EnumDescriptorProto) (mer : List DescriptorProtoExtensionRange)
    (mod : List OneofDescriptorProto) (mo : Option (List OptionField))
    (hmt : file.messageType
      = pre ++ (DescriptorProto.mk mname (fpre ++ fld :: fpost) mx mnt met mer mod
          mo) :: post)
    (hopts : optionsClean file.options = true)
    (het : file.enumType.all (fun e => e.clean) = true)
    (hx : file.extension.all (fun f => f.clean) = true)
    (hsvc : file.service.all (fun s => s.clean) = true)
    (hpre : DescriptorProto.cleanList pre = true)
    (hpost : DescriptorProto.cleanList post = true)
    (hfpre : fpre.all (fun f => f.clean) = true)
    (hfpost : fpost.all (fun f => f.clean) = true)
    (hmx : mx.all (fun f => f.clean) = true)
    (hmnt : DescriptorProto.cleanList mnt = true)
    (hmet : met.all (fun e => e.clean) = true)
    (hmer : mer.all (fun e => e.clean) = true)
    (hmod : mod.all (fun o => o.clean) = true)
    (hmo : optionsClean mo = true)
    (hfld : optionsClean fld.options = false) :
    ∀ (p : Option (List Nat)) (t : Option sourcePathTrie), ∃ si',
      stripFileWithState file p t
        = { file with
            messageType := pre ++ (DescriptorProto.mk mname
              (fpre ++ ({ fld with options := stripOptions fld.options }) :: fpost)
              mx mnt met mer mod mo) :: post,
            sourceCodeInfo := si' } := by
  intro p t
  simp only [List.all_eq_true] at het hx hsvc
  have hmsg' := message_one_dirty_field_strip mname fpre fpost fld mx mnt met mer mod
    mo hfpre hfpost hmx hmnt hmet hmer hmod hmo hfld
  obtain ⟨t1, hSlice⟩ := stripMessageSlice_one_dirty pre post _ _ hpre hpost hmsg'
    (pushPath p fileMessagesTag) 0 t
  have hO : ∀ (pp : Option (List Nat)) (tt : Option sourcePathTrie),
      stripSourceRetentionOptionsFromProtoMessage file.options pp tt
        = (file.options, false, tt) :=
    fun pp tt => optionsClean_strip file.options hopts pp tt
  have hM : stripOptionsFromAllMessages file.messageType
      (pushPath p fileMessagesTag) t
      = (pre ++ (DescriptorProto.mk mname
          (fpre ++ ({ fld with options := stripOptions fld.options }) :: fpost)
          mx mnt met mer mod mo) :: post, true, t1) := by
    rw [hmt]
    simp [stripOptionsFromAllMessages, hSlice]
  have hE : ∀ (pp : Option (List Nat)) (tt : Option sourcePathTrie),
      stripOptionsFromAll stripSourceRetentionOptionsFromEnum file.enumType pp tt
        = (file.enumType, false, tt) :=
    fun pp tt => stripOptionsFromAll_clean _ file.enumType
      (fun y hy p' t' => enum_clean_strip y (het y hy) p' t') pp tt
  have hXx : ∀ (pp : Option (List Nat)) (tt : Option sourcePathTrie),
      stripOptionsFromAll stripSourceRetentionOptionsFromField file.extension pp tt
        = (file.extension, false, tt) :=
    fun pp tt => stripOptionsFromAll_clean _ file.extension
      (fun y hy p' t' => field_clean_strip y (hx y hy) p' t') pp tt
  have hS : ∀ (pp : Option (List Nat)) (tt : Option sourcePathTrie),
      stripOptionsFromAll stripSourceRetentionOptionsFromService file.service pp tt
        = (file.service, false, tt) :=
    fun pp tt => stripOptionsFromAll_clean _ file.service
      (fun y hy p' t' => service_clean_strip y (hsvc y hy) p' t') pp tt
  refine ⟨stripSourcePathsForSourceRetentionOptions file.sourceCodeInfo t1, ?_⟩
  simp [stripFileWithState, hO, hM, hE, hXx, hS]

/-- C6: structural sharing in the stripper.  A descriptor tree with zero
source-retention-tagged option fields strips to the very value that went in (the code
returns its input at every level); a tree whose only tagged field sits at one leaf
strips to a result with a new leaf, a new enclosing message and a new root, while the
sibling message lists and every other file component are the input's own values. -/
theorem c6_stripper_structural_sharing :
    (∀ file : FileDescriptorProto, file.clean = true →
      StripSourceRetentionOptions file = file)
    ∧ (∀ (file : FileDescriptorProto) (pre post : List DescriptorProto)
        (mname : Option String) (fpre fpost : List FieldDescriptorProto)
        (fld : FieldDescriptorProto) (mx : List FieldDescriptorProto)
        (mnt : List DescriptorProto) (met : List EnumDescriptorProto)
        (mer : List DescriptorProtoExtensionRange)
        (mod : List OneofDescriptorProto) (mo : Option (List OptionField)),
        file.messageType = pre ++ (DescriptorProto.mk mname (fpre ++ fld :: fpost)
          mx mnt met mer mod mo) :: post →
        optionsClean file.options = true →
        file.enumType.all (fun e => e.clean) = true →
        file.extension.all (fun f => f.clean) = true →
        file.service.all (fun s => s.clean) = true →
        DescriptorProto.cleanList pre = true →
        DescriptorProto.cleanList post = true →
        fpre.all (fun f => f.clean) = true → fpost.all (fun f => f.clean) = true →
        mx.all (fun f => f.clean) = true → DescriptorProto.cleanList mnt = true →
        met.all (fun e => e.clean) = true → mer.all (fun e => e.clean) = true →
        mod.all (fun o => o.clean) = true → optionsClean mo = true →
        optionsClean fld.options = false →
        ((StripSourceRetentionOptions file).messageType
            = pre ++ (DescriptorProto.mk mname
                (fpre ++ ({ fld with options := stripOptions fld.options }) :: fpost)
                mx mnt met mer mod mo) :: post
          ∧ (StripSourceRetentionOptions file).options = file.options
          ∧ (StripSourceRetentionOptions file).enumType = file.enumType
          ∧ (StripSourceRetentionOptions file).extension = file.extension
          ∧ (StripSourceRetentionOptions file).service = file.service
          ∧ (StripSourceRetentionOptions file).name = file.name
          ∧ (StripSourceRetentionOptions file).dependency = file.dependency
          ∧ ({ fld with options := stripOptions fld.options } : FieldDescriptorProto)
              ≠ fld
          ∧ DescriptorProto.mk mname
              (fpre ++ ({ fld with options := stripOptions fld.options }) :: fpost)
              mx mnt met mer mod mo
              ≠ DescriptorProto.mk mname (fpre ++ fld :: fpost) mx mnt met mer mod mo
          ∧ StripSourceRetentionOptions file ≠ file)) := by
  constructor
  · intro file h
    exact stripFileWithState_clean file h _ _
  · intro file pre post mname fpre fpost fld mx mnt met mer mod mo hmt hopts het hx
      hsvc hpre hpost hfpre hfpost hmx hmnt hmet hmer hmod hmo hfld
    have hres : ∃ si', StripSourceRetentionOptions file
        = { file with
            messageType := pre ++ (DescriptorProto.mk mname
              (fpre ++ ({ fld with options := stripOptions fld.options }) :: fpost)
              mx mnt met mer mod mo) :: post,
            sourceCodeInfo := si' } := by
      rw [StripSourceRetentionOptions]
      exact stripFileWithState_one_dirty file pre post mname fpre fpost fld mx mnt
        met mer mod mo hmt hopts het hx hsvc hpre hpost hfpre hfpost hmx hmnt hmet
        hmer hmod hmo hfld _ _
    obtain ⟨si', hres⟩ := hres
    have hfldne :
        ({ fld with options := stripOptions fld.options } : FieldDescriptorProto)
          ≠ fld :=
      fun he => stripOptions_ne fld.options hfld
        (congrArg FieldDescriptorProto.options he)
    have hmsgne : DescriptorProto.mk mname
        (fpre ++ ({ fld with options := stripOptions fld.options }) :: fpost)
        mx mnt met mer mod mo
        ≠ DescriptorProto.mk mname (fpre ++ fld :: fpost) mx mnt met mer mod mo := by
      intro he
      have hfields := congrArg DescriptorProto.field he
      simp only [DescriptorProto.field] at hfields
      have := List.append_cancel_left hfields
      exact hfldne (List.cons.inj this).1
    refine ⟨by rw [hres], by rw [hres], by rw [hres], by rw [hres], by rw [hres],
      by rw [hres], by rw [hres], hfldne, hmsgne, ?_⟩
    intro he
    have hmts := congrArg FileDescriptorProto.messageType he
    rw [hres] at hmts
    simp only at hmts
    rw [hmt] at hmts
    have := List.append_cancel_left hmts
    exact hmsgne (List.cons.inj this).1

/-- Concrete instantiation of `c6_stripper_structural_sharing`: a file with one clean
message strips to itself; a file whose message `M` carries one source-retention
option field gets a rebuilt `M` with the option gone while the sibling message `N`
and everything else survive, and the result differs from the input. -/
theorem c6_stripper_structural_sharing_witness :
    StripSourceRetentionOptions
        ⟨some "a.proto", [], [.mk (some "M") [] [] [] [] [] [] none], [], [], [],
          none, none⟩
      = ⟨some "a.proto", [], [.mk (some "M") [] [] [] [] [] [] none], [], [], [],
          none, none⟩
    ∧ (StripSourceRetentionOptions
        ⟨some "b.proto", [],
          [.mk (some "M")
              [⟨some "f", some 1, some [⟨7, .retentionSource, 0⟩]⟩] [] [] [] [] []
              none,
            .mk (some "N") [] [] [] [] [] [] none], [], [], [], none,
          none⟩).messageType
      = [.mk (some "M") [⟨some "f", some 1, none⟩] [] [] [] [] [] none,
          .mk (some "N") [] [] [] [] [] [] none]
    ∧ StripSourceRetentionOptions
        ⟨some "b.proto", [],
          [.mk (some "M")
              [⟨some "f", some 1, some [⟨7, .retentionSource, 0⟩]⟩] [] [] [] [] []
              none,
            .mk (some "N") [] [] [] [] [] [] none], [], [], [], none, none⟩
      ≠ ⟨some "b.proto", [],
          [.mk (some "M")
              [⟨some "f", some 1, some [⟨7, .retentionSource, 0⟩]⟩] [] [] [] [] []
              none,
            .mk (some "N") [] [] [] [] [] [] none], [], [], [], none, none⟩ := by
  refine ⟨c6_stripper_structural_sharing.1 _ (by rfl), ?_, ?_⟩
  · have h := c6_stripper_structural_sharing.2
      ⟨some "b.proto", [],
        [.mk (some "M")
            [⟨some "f", some 1, some [⟨7, .retentionSource, 0⟩]⟩] [] [] [] [] []
            none,
          .mk (some "N") [] [] [] [] [] [] none], [], [], [], none, none⟩
      [] [.mk (some "N") [] [] [] [] [] [] none] (some "M") [] []
      ⟨some "f", some 1, some [⟨7, .retentionSource, 0⟩]⟩ [] [] [] [] [] none
      rfl rfl rfl rfl rfl rfl rfl rfl rfl rfl rfl rfl rfl rfl rfl rfl
    exact h.1
  · have h := c6_stripper_structural_sharing.2
      ⟨some "b.proto", [],
        [.mk (some "M")
            [⟨some "f", some 1, some [⟨7, .retentionSource, 0⟩]⟩] [] [] [] [] []
            none,
          .mk (some "N") [] [] [] [] [] [] none], [], [], [], none, none⟩
      [] [.mk (some "N") [] [] [] [] [] [] none] (some "M") [] []
      ⟨some "f", some 1, some [⟨7, .retentionSource, 0⟩]⟩ [] [] [] [] [] none
      rfl rfl rfl rfl rfl rfl rfl rfl rfl rfl rfl rfl rfl rfl rfl rfl
    exact h.2.2.2.2.2.2.2.2.2

end Protoplugin
